import Mathlib

/-!
# james-bowman/pipeline: discovery poller, fetch-transform stage and delivery sink

A shallow embedding of the Go sources

* `datasrc/datasrc.go` (`EventRepository.CheckForNewItems`, the source data types),
* `feed.go` (`Feed.process`, `EventStream.process`, `EventStream.convertEvent`),
* `datasink.go` (`EventStore.Create`, `EventSink.ProcessAll`),

followed by the properties established about them.  HTTP collaborators are
inputs: a poll outcome is an `Except String (List Int)`, an event or market
source is a function from an identifier to an `Except`.  Go's `int` is modelled
as `Int`; the only place where its width matters is `strconv.Atoi`, which
rejects values outside the 64-bit range.
-/

set_option autoImplicit false

/-! ## Package `datasrc` -/

namespace datasrc

/-- The part of `time.Time` the pipeline relies on: a value that is copied verbatim. -/
structure Time where
  unixNano : Int
deriving DecidableEq, Repr

/-- Type `datasrc.Event`. -/
structure Event where
  Id : Int
  Name : String
  Time : Time
  Markets : List Int
deriving DecidableEq, Repr

/-- Type `datasrc.Option`. -/
structure Option where
  Id : String
  Name : String
  Odds : String
deriving DecidableEq, Repr

/-- Type `datasrc.Market`. -/
structure Market where
  Id : String
  «Type» : String
  Options : List datasrc.Option
deriving DecidableEq, Repr

/-- Type `datasrc.EventRepository`; `BaseURL` only addresses the HTTP collaborator
and is left out, `pointer` is the discovery cursor. -/
structure EventRepository where
  pointer : Int
deriving DecidableEq, Repr

/-- State of the `for _, item := range items` loop of `CheckForNewItems`.
`newItems := items[:0]` shares the backing array of `items`, so one array
`backing` serves both slices; `newLen` is `len(newItems)`. -/
structure Scan where
  backing : List Int
  newLen : Nat
  newPointer : Int
deriving DecidableEq, Repr

/-- One iteration of the range loop at index `i`: `item` is read from the
(shared) backing array; `append(newItems, item)` stays within capacity and so
writes `backing[len(newItems)]`. -/
def scanStep (pointer : Int) (s : Scan) (i : Nat) : Scan :=
  let item := s.backing.getD i 0
  if item > pointer then
    { backing := s.backing.set s.newLen item
      newLen := s.newLen + 1
      newPointer := if item > s.newPointer then item else s.newPointer }
  else s

/-- The whole range loop: indices `0 .. len(items)-1` in order. -/
def scan (pointer : Int) (items : List Int) : Scan :=
  (List.range items.length).foldl (scanStep pointer) ⟨items, 0, pointer⟩

/-- Method `EventRepository.CheckForNewItems`.  `get` is the outcome of the HTTP
request for the identifier listing; the result is the returned pair
`([]int, error)` together with the repository after the call. -/
def EventRepository.CheckForNewItems (e : EventRepository) (get : Except String (List Int)) :
    Except String (List Int) × EventRepository :=
  match get with
  | .error err => (.error err, e)
  | .ok items =>
    let s := scan e.pointer items
    (.ok (s.backing.take s.newLen), { pointer := s.newPointer })

end datasrc

/-! ## Go standard library functions used by the pipeline -/

namespace strings

/-- Fields of a character sequence around each occurrence of `sep`; a sequence
with `k` separators has `k + 1` fields. -/
def splitChars (sep : Char) : List Char → List (List Char)
  | [] => [[]]
  | c :: cs =>
    if c = sep then [] :: splitChars sep cs
    else
      match splitChars sep cs with
      | [] => [[c]]
      | f :: fs => (c :: f) :: fs

/-- Go's `strings.Split(s, sep)` for a one-character separator. -/
def Split (s : String) (sep : Char) : List String :=
  (splitChars sep s.data).map String.mk

end strings

namespace strconv

/-- Errors of `strconv`: `ErrSyntax` and `ErrRange`. -/
inductive NumError where
  | ErrSyntax
  | ErrRange
deriving DecidableEq, Repr

/-- Go's `strconv.IntSize` on the 64-bit platforms the pipeline targets. -/
def intSize : Nat := 64

/-- Value of a decimal digit, `none` for any other character. -/
def digitVal (c : Char) : Option Nat :=
  if 48 ≤ c.toNat ∧ c.toNat ≤ 57 then some (c.toNat - 48) else none

/-- Decimal value of a digit sequence continued from `acc`; `none` when a
character is not a digit. -/
def parseDigits : List Char → Nat → Option Nat
  | [], acc => some acc
  | c :: cs, acc =>
    match digitVal c with
    | none => none
    | some v => parseDigits cs (acc * 10 + v)

/-- Go's `strconv.Atoi`: an optional sign, then one or more decimal digits, the
value within the range of `int`. -/
def Atoi (s : String) : Except NumError Int :=
  let parts : Bool × List Char :=
    match s.data with
    | '+' :: ds => (false, ds)
    | '-' :: ds => (true, ds)
    | ds => (false, ds)
  let neg := parts.1
  let ds := parts.2
  if ds = [] then .error .ErrSyntax
  else
    match parseDigits ds 0 with
    | none => .error .ErrSyntax
    | some un =>
      let cutoff : Nat := 2 ^ (intSize - 1)
      if !neg && cutoff ≤ un then .error .ErrRange
      else if neg && cutoff < un then .error .ErrRange
      else .ok (if neg then -(un : Int) else (un : Int))

/-- Go's `strconv.Itoa`. -/
def Itoa (i : Int) : String := toString i

end strconv

/-! ## Package `main` -/

namespace pipeline

/-- Type `Option` of `datasink.go`. -/
structure Option where
  Id : String
  Name : String
  Num : Int
  Den : Int
deriving DecidableEq, Repr

/-- Type `Market` of `datasink.go`. -/
structure Market where
  Id : String
  «Type» : String
  Options : List pipeline.Option
deriving DecidableEq, Repr

/-- Type `Event` of `datasink.go`. -/
structure Event where
  Id : String
  Name : String
  Time : datasrc.Time
  Markets : List Market
deriving DecidableEq, Repr

/-- Interface `EventSourcer`; a Go `error` is its message. -/
structure EventSourcer where
  GetByID : Int → Except String datasrc.Event

/-- Interface `MarketSourcer`. -/
structure MarketSourcer where
  GetByID : Int → Except String datasrc.Market

/-- Type `EventStream`; its channels appear as the lists and states below. -/
structure EventStream where
  eventSrc : EventSourcer
  marketSrc : MarketSourcer

/-- The error built by `fmt.Errorf("Failed to parse odds %s for market %d", ...)`. -/
def oddsError (odds : String) (marketId : Int) : String :=
  "Failed to parse odds " ++ odds ++ " for market " ++ toString marketId

/-- Body of the inner loop of `convertEvent`: decode one option of market
`marketId`. -/
def convertOption (marketId : Int) (o : datasrc.Option) : Except String Option :=
  let odds := strings.Split o.Odds '/'
  if h : odds.length < 2 then .error (oddsError o.Odds marketId)
  else
    match strconv.Atoi odds[0] with
    | .error _ => .error (oddsError o.Odds marketId)
    | .ok num =>
      match strconv.Atoi odds[1] with
      | .error _ => .error (oddsError o.Odds marketId)
      | .ok den => .ok { Id := o.Id, Name := o.Name, Num := num, Den := den }

/-- Inner loop of `convertEvent`, `options` being the slice appended to. -/
def convertOptions (marketId : Int) :
    List datasrc.Option → List Option → Except String (List Option)
  | [], options => .ok options
  | o :: rest, options =>
    match convertOption marketId o with
    | .error err => .error err
    | .ok option => convertOptions marketId rest (options ++ [option])

/-- Outer loop of `convertEvent`, `markets` being the slice appended to. -/
def convertMarkets (e : EventStream) :
    List Int → List Market → Except String (List Market)
  | [], markets => .ok markets
  | marketId :: rest, markets =>
    match e.marketSrc.GetByID marketId with
    | .error err => .error err
    | .ok m =>
      match convertOptions marketId m.Options [] with
      | .error err => .error err
      | .ok options =>
        convertMarkets e rest (markets ++ [{ Id := m.Id, «Type» := m.«Type», Options := options }])

/-- Method `EventStream.convertEvent`. -/
def EventStream.convertEvent (e : EventStream) (event : datasrc.Event) : Except String Event :=
  match convertMarkets e event.Markets [] with
  | .error err => .error err
  | .ok markets =>
    .ok { Id := strconv.Itoa event.Id, Name := event.Name, Time := event.Time, Markets := markets }

/-- One timer tick of `Feed.process` (the termination channel not being
closed): the identifiers sent on `newItems` and the repository afterwards.  On
an error the loop logs and `items` stays nil. -/
def Feed.cycle (checker : datasrc.EventRepository) (get : Except String (List Int)) :
    List Int × datasrc.EventRepository :=
  match checker.CheckForNewItems get with
  | (.error _, checker1) => ([], checker1)
  | (.ok items, checker1) => (items, checker1)

/-- Successive ticks of `Feed.process`, one per poll outcome: everything sent on
`newItems`, in order, and the repository after the last tick. -/
def Feed.process (checker : datasrc.EventRepository) :
    List (Except String (List Int)) → List Int × datasrc.EventRepository
  | [] => ([], checker)
  | get :: rest =>
    let r := Feed.cycle checker get
    let r1 := Feed.process r.2 rest
    (r.1 ++ r1.1, r1.2)

/-- The response of the store to a POST: `resp.StatusCode` and `resp.Status`. -/
structure Response where
  StatusCode : Int
  Status : String
deriving DecidableEq, Repr

/-- Constant `http.StatusOK`. -/
def StatusOK : Int := 200

/-- Type `EventStore`; `post` stands for `http.Post` to the store's URL. -/
structure EventStore where
  post : Event → Except String Response

/-- Method `EventStore.Create`; `.ok ()` is the nil error.  In the message the
`%v` rendering of the event is shortened to its identifier. -/
def EventStore.Create (e : EventStore) (event : Event) : Except String Unit :=
  match e.post event with
  | .error err => .error err
  | .ok resp =>
    if resp.StatusCode ≠ StatusOK then
      .error ("Event Store rejected Event " ++ event.Id ++ " because " ++ resp.Status)
    else .ok ()

/-- Method `EventSink.ProcessAll` over the events received from the channel:
the record of every `Create` call with its outcome (a failure is logged and
the loop continues). -/
def EventSink.ProcessAll (eventStore : EventStore) : List Event → List (Event × Except String Unit)
  | [] => []
  | event :: rest => (event, eventStore.Create event) :: EventSink.ProcessAll eventStore rest

end pipeline

/-! ## Notions used to state the properties -/

deriving instance DecidableEq for Except

namespace datasrc

/-- Shape of the loop state of `CheckForNewItems` after the first `i` iterations:
the backing array holds the identifiers kept so far, then already read cells,
then the part of the listing not yet read; `newPointer` is the running maximum. -/
structure ScanInv (pointer : Int) (items : List Int) (i : Nat) (s : Scan) : Prop where
  shape : ∃ mid : List Int,
    s.backing = (items.take i).filter (fun id => decide (id > pointer)) ++ mid ++ items.drop i ∧
    ((items.take i).filter (fun id => decide (id > pointer))).length + mid.length = i
  len : s.newLen = ((items.take i).filter (fun id => decide (id > pointer))).length
  ptr : s.newPointer = (items.take i).foldl max pointer

end datasrc

namespace poller

/-- All identifiers contained in the successful listings of a sequence of poll
outcomes, in the order received. -/
def seenIds : List (Except String (List Int)) → List Int
  | [] => []
  | .error _ :: rest => seenIds rest
  | .ok items :: rest => items ++ seenIds rest

/-- The maximum identifier contained in any of the successful listings, `none`
when they contain no identifier. -/
def maxSeen (polls : List (Except String (List Int))) : Option Int :=
  (seenIds polls).max?

end poller

namespace odds

/-- A decimal integer: an optional sign followed by one or more decimal digits. -/
def isDecimalInteger (s : String) : Bool :=
  match s.data with
  | '+' :: ds => !ds.isEmpty && ds.all Char.isDigit
  | '-' :: ds => !ds.isEmpty && ds.all Char.isDigit
  | ds => !ds.isEmpty && ds.all Char.isDigit

/-- The numerator part of an odds string: the text before its first `/`. -/
def numeratorPart (s : String) : String :=
  ⟨s.data.takeWhile (fun c => c != '/')⟩

/-- The denominator part of an odds string: the text after its first `/`, up
to the next `/` if there is one. -/
def denominatorPart (s : String) : String :=
  ⟨((s.data.dropWhile (fun c => c != '/')).drop 1).takeWhile (fun c => c != '/')⟩

end odds

namespace pipeline

/-- The relation between a market identifier of a source event and the market
converted for it: the market is the one fetched for the identifier, `Id` and
`Type` are copied, and the options are the decoded source options in order. -/
def MarketConverted (e : EventStream) (marketId : Int) (pm : Market) : Prop :=
  ∃ m, e.marketSrc.GetByID marketId = .ok m ∧ pm.Id = m.Id ∧ pm.«Type» = m.«Type» ∧
    List.Forall₂ (fun o po => convertOption marketId o = .ok po) m.Options pm.Options

end pipeline

/-! ## Fixtures of `pipeline_test.go` -/

namespace fixtures

/-- Source market `id` of `jsonSrcMarkets`: the same three options under both identifiers. -/
def srcMarket (id : String) : datasrc.Market :=
  { Id := id
    «Type» := "win-draw-win"
    Options :=
      [ { Id := id ++ "01", Name := "Southampton", Odds := "3/5" },
        { Id := id ++ "02", Name := "Draw", Odds := "4/5" },
        { Id := id ++ "03", Name := "Bournemouth", Odds := "5/1" } ] }

/-- The market handler of `testingHttpHandler`: an unknown identifier gets an
empty body, which fails to decode. -/
def marketSrc : pipeline.MarketSourcer where
  GetByID := fun id =>
    if id = 101 then .ok (srcMarket "101")
    else if id = 102 then .ok (srcMarket "102")
    else .error "EOF"

/-- The event handler of `testingHttpHandler` over `jsonSrcEvents`. -/
def eventSrc : pipeline.EventSourcer where
  GetByID := fun id =>
    if id = 1 then
      .ok { Id := 1, Name := "Southampton v Bournemouth",
            Time := { unixNano := 1503241200000000000 }, Markets := [101, 102] }
    else if id = 2 then
      .ok { Id := 2, Name := "Arsenal v Bournemouth",
            Time := { unixNano := 1503241200000000000 }, Markets := [102] }
    else if id = 3 then
      .ok { Id := 3, Name := "Southampton v Arsenal",
            Time := { unixNano := 1503327600000000000 }, Markets := [101] }
    else .error "EOF"

/-- The stream `TestPipeline` builds over the test server. -/
def stream : pipeline.EventStream :=
  { eventSrc := eventSrc, marketSrc := marketSrc }

/-- A stream whose every market has the single option `odds`. -/
def streamWithOdds (odds : String) : pipeline.EventStream :=
  { eventSrc := eventSrc
    marketSrc :=
      { GetByID := fun _ =>
          .ok { Id := "101", «Type» := "win-draw-win",
                Options := [{ Id := "10101", Name := "Southampton", Odds := odds }] } } }

/-- A source event referring to the one market 101. -/
def eventWithMarket : datasrc.Event :=
  { Id := 7, Name := "Southampton v Arsenal", Time := { unixNano := 0 }, Markets := [101] }

/-- The conversion of source market `id`. -/
def market (id : String) : pipeline.Market :=
  { Id := id
    «Type» := "win-draw-win"
    Options :=
      [ { Id := id ++ "01", Name := "Southampton", Num := 3, Den := 5 },
        { Id := id ++ "02", Name := "Draw", Num := 4, Den := 5 },
        { Id := id ++ "03", Name := "Bournemouth", Num := 5, Den := 1 } ] }

/-- The conversion of source event 1. -/
def event1 : pipeline.Event :=
  { Id := "1", Name := "Southampton v Bournemouth",
    Time := { unixNano := 1503241200000000000 }, Markets := [market "101", market "102"] }

/-- The conversion of source event 2. -/
def event2 : pipeline.Event :=
  { Id := "2", Name := "Arsenal v Bournemouth",
    Time := { unixNano := 1503241200000000000 }, Markets := [market "102"] }

/-- The conversion of source event 3. -/
def event3 : pipeline.Event :=
  { Id := "3", Name := "Southampton v Arsenal",
    Time := { unixNano := 1503327600000000000 }, Markets := [market "101"] }

/-- The conversion of `eventWithMarket` when the option decodes to `num`/`den`. -/
def productWithOdds (num den : Int) : pipeline.Event :=
  { Id := "7", Name := "Southampton v Arsenal", Time := { unixNano := 0 },
    Markets :=
      [ { Id := "101", «Type» := "win-draw-win",
          Options := [{ Id := "10101", Name := "Southampton", Num := num, Den := den }] } ] }

/-- A store that answers every POST with the given status. -/
def storeAnswering (code : Int) (status : String) : pipeline.EventStore :=
  { post := fun _ => .ok { StatusCode := code, Status := status } }

end fixtures

/-! ## The two goroutines of `EventStream.process` and the sink, step by step -/

namespace pipeline

/-- Control point of a goroutine that forwards values over an unbuffered channel. -/
inductive Stage (α : Type) where
  /-- At `for ... := range input`, waiting for the next value. -/
  | receiving : Stage α
  /-- At the `select`, offering `v` on its output channel. -/
  | sending (v : α) : Stage α
  /-- Returned; the deferred `close` of its output channel has run. -/
  | returned : Stage α
deriving DecidableEq, Repr

/-- State of `Feed.NewItems() -> EventStream.process -> EventSink.ProcessAll`. -/
structure Wiring where
  /-- Identifiers the poller still hands over on `newIds`, after which it closes the channel. -/
  newIds : List Int
  /-- The first goroutine of `EventStream.process`. -/
  fetching : Stage datasrc.Event
  /-- The second goroutine of `EventStream.process`. -/
  converting : Stage Event
  /-- Whether `e.termination` has been closed. -/
  terminated : Bool
  /-- Every `Create` call of the sink so far, with its outcome, in order. -/
  stored : List (Event × Except String Unit)
  /-- Whether `ProcessAll` has returned. -/
  sinkReturned : Bool
deriving DecidableEq, Repr

/-- The moves of the three loops and of their environment. -/
inductive Action where
  /-- The first goroutine receives an identifier and fetches its event. -/
  | receiveId
  /-- The first goroutine finds `newIds` closed and drained, and returns. -/
  | inputClosed
  /-- Rendezvous on `events`; the second goroutine converts what it received. -/
  | handOver
  /-- The second goroutine finds `events` closed, and returns. -/
  | bufferClosed
  /-- Rendezvous on `e.events`; the sink calls `Create` on what it received. -/
  | deliver
  /-- The sink finds `e.events` closed, and `ProcessAll` returns. -/
  | outputClosed
  /-- `EventStream.Close` closes `e.termination`. -/
  | close
  /-- The first goroutine takes the `<-e.termination` case of its `select`. -/
  | fetchCancelled
  /-- The second goroutine takes the `<-e.termination` case of its `select`. -/
  | convertCancelled
deriving DecidableEq, Repr

/-- What the first goroutine does with a received identifier: a failed fetch
is logged and the loop continues, a fetched event is offered on `events`. -/
def EventStream.fetched (e : EventStream) (id : Int) : Stage datasrc.Event :=
  match e.eventSrc.GetByID id with
  | .error _ => .receiving
  | .ok newEvent => .sending newEvent

/-- What the second goroutine does with a received event: a failed conversion
is logged and the loop continues, a product is offered on `e.events`. -/
def EventStream.converted (e : EventStream) (event : datasrc.Event) : Stage Event :=
  match e.convertEvent event with
  | .error _ => .receiving
  | .ok product => .sending product

/-- One move; a move that is not enabled leaves the state as it is. -/
def EventStream.step (e : EventStream) (eventStore : EventStore) (s : Wiring) :
    Action → Wiring
  | .receiveId =>
    match s.fetching, s.newIds with
    | .receiving, id :: rest => { s with newIds := rest, fetching := e.fetched id }
    | _, _ => s
  | .inputClosed =>
    match s.fetching, s.newIds with
    | .receiving, [] => { s with fetching := .returned }
    | _, _ => s
  | .handOver =>
    match s.fetching, s.converting with
    | .sending event, .receiving =>
      { s with fetching := .receiving, converting := e.converted event }
    | _, _ => s
  | .bufferClosed =>
    match s.fetching, s.converting with
    | .returned, .receiving => { s with converting := .returned }
    | _, _ => s
  | .deliver =>
    match s.converting, s.sinkReturned with
    | .sending product, false =>
      { s with converting := .receiving,
               stored := s.stored ++ [(product, eventStore.Create product)] }
    | _, _ => s
  | .outputClosed =>
    match s.converting with
    | .returned => { s with sinkReturned := true }
    | _ => s
  | .close => { s with terminated := true }
  | .fetchCancelled =>
    match s.fetching, s.terminated with
    | .sending _, true => { s with fetching := .returned }
    | _, _ => s
  | .convertCancelled =>
    match s.converting, s.terminated with
    | .sending _, true => { s with converting := .returned }
    | _, _ => s

/-- The state when `main` has wired the stages and the poller is to emit `ids`. -/
def Wiring.init (ids : List Int) : Wiring :=
  { newIds := ids, fetching := .receiving, converting := .receiving, terminated := false,
    stored := [], sinkReturned := false }

/-- The state after the moves of a schedule, taken in order. -/
def EventStream.run (e : EventStream) (eventStore : EventStore) (ids : List Int)
    (schedule : List Action) : Wiring :=
  schedule.foldl (e.step eventStore) (Wiring.init ids)

/-- The conversions of those identifiers whose event fetch succeeds and whose
conversion succeeds, in the order of the identifiers. -/
def EventStream.conversions (e : EventStream) : List Int → List Event
  | [] => []
  | id :: ids =>
    match e.eventSrc.GetByID id with
    | .error _ => e.conversions ids
    | .ok event =>
      match e.convertEvent event with
      | .error _ => e.conversions ids
      | .ok product => product :: e.conversions ids

/-- The products still to come out of what is under way in a state: the one
offered to the sink, the conversion of the event offered on `events`, and the
conversions of the identifiers not yet received. -/
def Wiring.inFlight (e : EventStream) (s : Wiring) : List Event :=
  (match s.converting with
   | .sending product => [product]
   | _ => []) ++
  (match s.fetching with
   | .sending event =>
     (match e.convertEvent event with
      | .ok product => [product]
      | .error _ => [])
   | _ => []) ++
  e.conversions s.newIds

/-- Invariant of the states reached from `Wiring.init ids` without cancellation. -/
structure Wiring.Inv (e : EventStream) (eventStore : EventStore) (ids : List Int)
    (s : Wiring) : Prop where
  flow : s.stored.map Prod.fst ++ s.inFlight e = e.conversions ids
  outcome : s.stored = EventSink.ProcessAll eventStore (s.stored.map Prod.fst)
  fetchDone : s.fetching = .returned → s.newIds = []
  convertDone : s.converting = .returned → s.fetching = .returned
  sinkDone : s.sinkReturned = true → s.converting = .returned

end pipeline

namespace fixtures

/-- An interleaving for five identifiers in which the fetch of an identifier
overlaps the conversion and delivery of the one before. -/
def schedule : List pipeline.Action :=
  [.receiveId, .handOver, .receiveId, .deliver, .handOver, .receiveId, .deliver, .handOver,
   .receiveId, .receiveId, .deliver, .inputClosed, .bufferClosed, .outputClosed]

end fixtures

/-! ## The poller, the stream and the sink with their cancellation signals -/

namespace pipeline

/-- Control point of the goroutine `Feed.process`. -/
inductive FeedStage where
  /-- At the outer `select`: the timer or `f.termination`. -/
  | polling : FeedStage
  /-- At the inner `select`, blocked offering `item` on `f.newItems`; `rest`
  are the items of the range loop still to come. -/
  | sending (item : Int) (rest : List Int) : FeedStage
  /-- Returned; `close(f.newItems)` has run. -/
  | returned : FeedStage
deriving DecidableEq, Repr

/-- Where `Feed.process` stands with `items` left to range over: at the inner
`select` for the first of them, or back at the outer `select` when none is left. -/
def Feed.ranging : List Int → FeedStage
  | [] => .polling
  | item :: rest => .sending item rest

/-- State of the pipeline as `main` wires it: the poller, the two goroutines of
the stream, and the sink. -/
structure Plant where
  /-- The repository the poller checks; it holds the cursor. -/
  checker : datasrc.EventRepository
  /-- The goroutine `Feed.process`. -/
  feed : FeedStage
  /-- Whether `f.termination` has been closed (`Feed.Close`). -/
  feedTerminated : Bool
  /-- The first goroutine of `EventStream.process` (phase A). -/
  fetching : Stage datasrc.Event
  /-- The second goroutine of `EventStream.process` (phase B). -/
  converting : Stage Event
  /-- Whether `e.termination` has been closed (`EventStream.Close`). -/
  terminated : Bool
  /-- Every `Create` call of the sink so far, with its outcome, in order. -/
  stored : List (Event × Except String Unit)
  /-- Whether `ProcessAll` has returned. -/
  sinkReturned : Bool
deriving DecidableEq, Repr

/-- The moves of the four loops and of their environment. -/
inductive Move where
  /-- The timer case of the poller's outer `select`: `CheckForNewItems` runs,
  the listing request having the outcome `get`. -/
  | poll (get : Except String (List Int))
  /-- `Feed.Close` closes `f.termination`. -/
  | feedClose
  /-- The poller takes the `<-f.termination` case of the `select` it is at,
  closes `f.newItems` and returns. -/
  | feedStop
  /-- Rendezvous on `f.newItems`; phase A fetches the event of what it received. -/
  | emit
  /-- Phase A finds `e.newIds` closed, and returns, closing `events`. -/
  | inputClosed
  /-- Rendezvous on `events`; phase B converts what it received. -/
  | handOver
  /-- Phase B finds `events` closed, and returns, closing `e.events`. -/
  | bufferClosed
  /-- Rendezvous on `e.events`; the sink calls `Create` on what it received. -/
  | deliver
  /-- The sink finds `e.events` closed, and `ProcessAll` returns. -/
  | outputClosed
  /-- `EventStream.Close` closes `e.termination`. -/
  | close
  /-- Phase A takes the `<-e.termination` case of its `select`. -/
  | fetchCancelled
  /-- Phase B takes the `<-e.termination` case of its `select`. -/
  | convertCancelled
deriving DecidableEq, Repr

/-- One move of the wired pipeline; a move that is not enabled leaves the state
as it is.  A `select` with several ready cases may take any of them, so the
timer and send cases of the poller stay enabled after `Feed.Close`. -/
def EventStream.move (e : EventStream) (eventStore : EventStore) (s : Plant) : Move → Plant
  | .poll get =>
    match s.feed with
    | .polling =>
      { s with feed := Feed.ranging (Feed.cycle s.checker get).1,
               checker := (Feed.cycle s.checker get).2 }
    | _ => s
  | .feedClose => { s with feedTerminated := true }
  | .feedStop =>
    match s.feed, s.feedTerminated with
    | .polling, true => { s with feed := .returned }
    | .sending _ _, true => { s with feed := .returned }
    | _, _ => s
  | .emit =>
    match s.feed, s.fetching with
    | .sending item rest, .receiving =>
      { s with feed := Feed.ranging rest, fetching := e.fetched item }
    | _, _ => s
  | .inputClosed =>
    match s.feed, s.fetching with
    | .returned, .receiving => { s with fetching := .returned }
    | _, _ => s
  | .handOver =>
    match s.fetching, s.converting with
    | .sending event, .receiving =>
      { s with fetching := .receiving, converting := e.converted event }
    | _, _ => s
  | .bufferClosed =>
    match s.fetching, s.converting with
    | .returned, .receiving => { s with converting := .returned }
    | _, _ => s
  | .deliver =>
    match s.converting, s.sinkReturned with
    | .sending product, false =>
      { s with converting := .receiving,
               stored := s.stored ++ [(product, eventStore.Create product)] }
    | _, _ => s
  | .outputClosed =>
    match s.converting with
    | .returned => { s with sinkReturned := true }
    | _ => s
  | .close => { s with terminated := true }
  | .fetchCancelled =>
    match s.fetching, s.terminated with
    | .sending _, true => { s with fetching := .returned }
    | _, _ => s
  | .convertCancelled =>
    match s.converting, s.terminated with
    | .sending _, true => { s with converting := .returned }
    | _, _ => s

/-- The state when `main` has built the feed, the stream and the sink: cursor 0,
every loop at its first receive, no signal given. -/
def Plant.init : Plant :=
  { checker := { pointer := 0 }, feed := .polling, feedTerminated := false,
    fetching := .receiving, converting := .receiving, terminated := false,
    stored := [], sinkReturned := false }

/-- The state after the moves of a schedule, taken in order from `Plant.init`. -/
def EventStream.play (e : EventStream) (eventStore : EventStore) (schedule : List Move) : Plant :=
  schedule.foldl (e.move eventStore) Plant.init

/-- Every loop has returned: the poller, phase A, phase B and `ProcessAll`. -/
def Plant.allReturned (s : Plant) : Prop :=
  s.feed = .returned ∧ s.fetching = .returned ∧ s.converting = .returned ∧
    s.sinkReturned = true

/-- The moves by which the cancellation of the poller runs through the stages:
the poller takes its termination case; what the stream still holds is passed
on; each loop then finds its input closed. -/
def Feed.cascade : List Move :=
  [.feedStop, .deliver, .handOver, .deliver, .fetchCancelled, .inputClosed, .bufferClosed,
   .outputClosed]

/-- A bound on the moves that can still change a state whose poller has returned. -/
def Plant.rank (s : Plant) : Nat :=
  (match s.fetching with
   | .sending _ => 6
   | .receiving => 3
   | .returned => 0) +
  (match s.converting with
   | .sending _ => 2
   | .receiving => 1
   | .returned => 0) +
  (if s.sinkReturned then 0 else 1) + (if s.terminated then 0 else 1) +
  (if s.feedTerminated then 0 else 1)

/-- Invariant of the states of the wired pipeline: a channel is found closed
only after its sender has returned or been cancelled. -/
structure Plant.Inv (s : Plant) : Prop where
  sinkDone : s.sinkReturned = true → s.converting = .returned
  convertDone : s.converting = .returned → s.fetching = .returned ∨ s.terminated = true

end pipeline

namespace fixtures

/-- A run of the test pipeline up to `Feed.Close`: one listing, two identifiers
handed over, the poller blocked offering the third. -/
def closedWhileSending : List pipeline.Move :=
  [.poll (.ok [1, 2, 3, 4, 5]), .emit, .handOver, .emit, .feedClose]

end fixtures

/-! ## Lemmas on the in-place filter -/

namespace datasrc

theorem set_length_append (F t : List Int) (x y : Int) :
    (F ++ x :: t).set F.length y = F ++ y :: t := by
  induction F with
  | nil => rfl
  | cons a F ih => simp [ih]

theorem getD_length_append (F t : List Int) (x d : Int) (n : Nat) (hn : n = F.length) :
    (F ++ x :: t).getD n d = x := by
  subst hn
  induction F with
  | nil => rfl
  | cons a F ih => simpa using ih

theorem foldl_max_ge (l : List Int) (a : Int) : a ≤ l.foldl max a := by
  induction l generalizing a with
  | nil => simp
  | cons x l ih => exact le_trans (le_max_left a x) (ih (max a x))

theorem scanInv_step (pointer : Int) (items : List Int) (i : Nat) (s : Scan)
    (hi : i < items.length) (h : ScanInv pointer items i s) :
    ScanInv pointer items (i + 1) (scanStep pointer s i) := by
  obtain ⟨⟨mid, hb, hl⟩, hlen, hptr⟩ := h
  have htake : items.take (i + 1) = items.take i ++ [items[i]] := by
    rw [List.take_succ]; simp [List.getElem?_eq_getElem hi]
  have hdrop : items.drop i = items[i] :: items.drop (i + 1) := by
    simp
  set F := (items.take i).filter (fun id => decide (id > pointer)) with hF
  have hitem : s.backing.getD i 0 = items[i] := by
    rw [hb, hdrop]
    exact getD_length_append (F ++ mid) _ _ _ i (by simp [hl])
  have hge : pointer ≤ s.newPointer := hptr ▸ foldl_max_ge _ _
  unfold scanStep
  simp only [hitem]
  by_cases hp : items[i] > pointer
  · simp only [hp, if_true]
    have hF' : (items.take (i + 1)).filter (fun id => decide (id > pointer)) = F ++ [items[i]] := by
      rw [htake, List.filter_append]; simp [hp, hF]
    refine ⟨?_, ?_, ?_⟩
    · rw [hF']
      cases mid with
      | nil =>
        refine ⟨[], ?_, ?_⟩
        · simp only [hb, hlen, hdrop, List.append_nil]
          rw [set_length_append]; simp
        · simp at hl ⊢; omega
      | cons m ms =>
        refine ⟨ms ++ [items[i]], ?_, ?_⟩
        · simp only [hb, hlen, hdrop]
          rw [List.append_assoc, List.cons_append, set_length_append]; simp
        · simp at hl ⊢; omega
    · simp [hF', hlen]
    · simp only [htake, List.foldl_append, List.foldl_cons, List.foldl_nil, ← hptr]
      by_cases hq : items[i] > s.newPointer
      · simp [hq, max_eq_right (le_of_lt hq)]
      · simp [hq, max_eq_left (not_lt.mp hq)]
  · simp only [hp, if_false]
    have hF' : (items.take (i + 1)).filter (fun id => decide (id > pointer)) = F := by
      rw [htake, List.filter_append]; simp [hp, hF]
    refine ⟨?_, ?_, ?_⟩
    · rw [hF']
      refine ⟨mid ++ [items[i]], ?_, ?_⟩
      · rw [hb, hdrop]; simp
      · simp at hl ⊢; omega
    · rw [hF']; exact hlen
    · simp only [htake, List.foldl_append, List.foldl_cons, List.foldl_nil, ← hptr]
      have : items[i] ≤ s.newPointer := le_trans (not_lt.mp hp) hge
      simp [max_eq_left this]

theorem scanInv_range (pointer : Int) (items : List Int) (i : Nat) (hi : i ≤ items.length) :
    ScanInv pointer items i ((List.range i).foldl (scanStep pointer) ⟨items, 0, pointer⟩) := by
  induction i with
  | zero => exact ⟨⟨[], by simp, by simp⟩, by simp, by simp⟩
  | succ i ih =>
    rw [List.range_succ, List.foldl_append]
    exact scanInv_step pointer items i _ hi (ih (Nat.le_of_lt hi))

/-- The in-place loop computes the order-preserving filter and the running maximum. -/
theorem scan_spec (pointer : Int) (items : List Int) :
    (scan pointer items).backing.take (scan pointer items).newLen
        = items.filter (fun id => decide (id > pointer)) ∧
      (scan pointer items).newPointer = items.foldl max pointer := by
  obtain ⟨⟨mid, hb, _⟩, hlen, hptr⟩ := scanInv_range pointer items items.length le_rfl
  simp only [List.take_length] at hb hlen hptr
  refine ⟨?_, hptr⟩
  unfold scan
  rw [hlen, hb, List.append_assoc, List.take_left]

theorem CheckForNewItems_ok (e : EventRepository) (items : List Int) :
    e.CheckForNewItems (.ok items)
      = (.ok (items.filter (fun id => decide (id > e.pointer))),
         { pointer := items.foldl max e.pointer }) := by
  simp only [EventRepository.CheckForNewItems, scan_spec]

end datasrc

/-! ## Discovery poller -/

namespace pipeline

open datasrc poller

theorem le_foldl_max_of_mem (l : List Int) (a x : Int) (hx : x ∈ l) : x ≤ l.foldl max a := by
  induction l generalizing a with
  | nil => cases hx
  | cons y l ih =>
    rcases List.mem_cons.mp hx with h | h
    · subst h
      exact le_trans (le_max_right a x) (foldl_max_ge l (max a x))
    · exact ih (max a y) h

theorem foldl_max_max (l : List Int) (a b : Int) :
    l.foldl max (max a b) = max a (l.foldl max b) := by
  induction l generalizing b with
  | nil => rfl
  | cons x l ih => simp only [List.foldl_cons, max_assoc, ih]

theorem Feed.cycle_error (e : EventRepository) (err : String) :
    Feed.cycle e (.error err) = ([], e) := rfl

theorem Feed.cycle_ok (e : EventRepository) (items : List Int) :
    Feed.cycle e (.ok items)
      = (items.filter (fun id => decide (id > e.pointer)),
         { pointer := items.foldl max e.pointer }) := by
  simp only [Feed.cycle, CheckForNewItems_ok]

theorem Feed.process_cons (e : EventRepository) (get : Except String (List Int))
    (rest : List (Except String (List Int))) :
    Feed.process e (get :: rest)
      = ((Feed.cycle e get).1 ++ (Feed.process (Feed.cycle e get).2 rest).1,
         (Feed.process (Feed.cycle e get).2 rest).2) := rfl

/-- Everything emitted lies above the cursor the poller started from, and no
identifier is emitted twice when no single listing repeats one. -/
theorem Feed.process_nodup (polls : List (Except String (List Int)))
    (hnd : ∀ items, Except.ok items ∈ polls → items.Nodup) (e : EventRepository) :
    (Feed.process e polls).1.Nodup ∧ ∀ x ∈ (Feed.process e polls).1, e.pointer < x := by
  induction polls generalizing e with
  | nil => exact ⟨List.nodup_nil, fun x hx => by cases hx⟩
  | cons get rest ih =>
    have hrest : ∀ items, Except.ok items ∈ rest → items.Nodup :=
      fun items h => hnd items (List.mem_cons_of_mem _ h)
    rw [Feed.process_cons]
    cases get with
    | error err =>
      simp only [Feed.cycle_error, List.nil_append]
      exact ih hrest e
    | ok items =>
      simp only [Feed.cycle_ok]
      obtain ⟨h1, h2⟩ := ih hrest { pointer := items.foldl max e.pointer }
      have hitems : items.Nodup := hnd items (List.mem_cons_self _ _)
      refine ⟨?_, ?_⟩
      · refine List.Nodup.append (hitems.filter _) h1 ?_
        intro x hx hx'
        have hle : x ≤ items.foldl max e.pointer :=
          le_foldl_max_of_mem items e.pointer x (List.mem_filter.mp hx).1
        exact absurd (h2 x hx') (not_lt.mpr hle)
      · intro x hx
        rcases List.mem_append.mp hx with h | h
        · simpa using (List.mem_filter.mp h).2
        · exact lt_of_le_of_lt (foldl_max_ge items e.pointer) (h2 x h)

theorem Feed.process_pointer (polls : List (Except String (List Int))) (e : EventRepository) :
    (Feed.process e polls).2.pointer = (seenIds polls).foldl max e.pointer := by
  induction polls generalizing e with
  | nil => rfl
  | cons get rest ih =>
    rw [Feed.process_cons]
    cases get with
    | error err => simp only [Feed.cycle_error, seenIds, ih]
    | ok items => simp only [Feed.cycle_ok, seenIds, ih, List.foldl_append]

/-- C1, as stated, fails: a listing that repeats an identifier has it emitted twice. -/
theorem C1_counterexample :
    (Feed.process { pointer := 0 } [.ok [5, 5]]).1 = [5, 5] ∧
      ¬ (Feed.process { pointer := 0 } [.ok [5, 5]]).1.Nodup := by
  decide

/-- C1 (amended): starting from cursor 0, over any number of poll cycles whose
successful listings are each free of duplicates (identifiers may recur from one
listing to a later one, and polls may fail), no identifier occurs more than once
among the identifiers the poller emits. -/
theorem C1_at_most_once_discovery (polls : List (Except String (List Int)))
    (hnd : ∀ items, Except.ok items ∈ polls → items.Nodup) :
    (Feed.process { pointer := 0 } polls).1.Nodup :=
  (Feed.process_nodup polls hnd { pointer := 0 }).1

/-- Witness of C1: the identifier 3 recurs in the second and third listing, one poll fails. -/
theorem C1_at_most_once_discovery_witness :
    (Feed.process { pointer := 0 }
      [.ok [2, 3, 1], .error "timeout", .ok [3, 4, 1], .ok [4, 3, 9, 2]]).1.Nodup :=
  C1_at_most_once_discovery
    [.ok [2, 3, 1], .error "timeout", .ok [3, 4, 1], .ok [4, 3, 9, 2]]
    (by
      intro items h
      simp only [List.mem_cons, Except.ok.injEq, List.mem_singleton, reduceCtorEq, false_or,
        List.not_mem_nil, or_false] at h
      rcases h with h | h | h <;> subst h <;> decide)

/-- C2, as stated, fails: after one successful listing holding only the
identifier -5 the cursor is 0, not the maximum identifier -5. -/
theorem C2_counterexample :
    (Feed.process { pointer := 0 } [.ok [-5]]).2.pointer = 0 ∧
      maxSeen [.ok [-5]] = some (-5) := by
  decide

/-- C2 (amended): starting from cursor 0, the cursor after any sequence of poll
outcomes is the larger of 0 and the maximum identifier of the successful
listings (0 when they hold no identifier); a failed poll leaves the repository
unchanged; and no poll decreases the cursor. -/
theorem C2_monotonic_cursor :
    (∀ polls : List (Except String (List Int)),
      (Feed.process { pointer := 0 } polls).2.pointer
        = match maxSeen polls with
          | none => 0
          | some m => max 0 m) ∧
    (∀ (e : EventRepository) (err : String), (e.CheckForNewItems (.error err)).2 = e) ∧
    (∀ (e : EventRepository) (get : Except String (List Int)),
      e.pointer ≤ (e.CheckForNewItems get).2.pointer) := by
  refine ⟨?_, fun _ _ => rfl, ?_⟩
  · intro polls
    rw [Feed.process_pointer]
    unfold maxSeen
    cases h : seenIds polls with
    | nil => rfl
    | cons a l =>
      simp only [List.max?, List.foldl_cons]
      exact foldl_max_max l 0 a
  · intro e get
    cases get with
    | error err => exact le_refl _
    | ok items =>
      rw [CheckForNewItems_ok]
      exact foldl_max_ge items e.pointer

/-- C3: on a successfully fetched listing `CheckForNewItems` returns exactly the
identifiers strictly greater than the cursor before the call, in listing order
and with their multiplicity: the in-place filter loses and adds no element. -/
theorem C3_filter_step (c : Int) (items : List Int) :
    ∃ newItems : List Int,
      (EventRepository.CheckForNewItems { pointer := c } (.ok items)).1 = .ok newItems ∧
      newItems = items.filter (fun id => decide (id > c)) ∧
      (∀ id, id ∈ newItems ↔ id ∈ items ∧ id > c) ∧
      (∀ id, id > c → newItems.count id = items.count id) ∧
      (∀ id, id ≤ c → newItems.count id = 0) := by
  refine ⟨items.filter (fun id => decide (id > c)), ?_, rfl, ?_, ?_, ?_⟩
  · rw [CheckForNewItems_ok]
  · intro id
    simp [List.mem_filter]
  · intro id hid
    rw [List.count_filter]
    simpa using hid
  · intro id hid
    rw [List.count_eq_zero]
    intro hmem
    have := (List.mem_filter.mp hmem).2
    simp only [gt_iff_lt, decide_eq_true_eq] at this
    exact absurd this (not_lt.mpr hid)

end pipeline

/-! ## Lemmas on `strconv` and `strings` -/

namespace strconv

theorem digitVal_digitChar (k : Nat) (hk : k < 10) :
    digitVal (Nat.digitChar k) = some k ∧ 48 ≤ (Nat.digitChar k).toNat := by
  interval_cases k <;> decide

theorem parseDigits_append (a b : List Char) (acc : Nat) :
    parseDigits (a ++ b) acc = (parseDigits a acc).bind (parseDigits b) := by
  induction a generalizing acc with
  | nil => rfl
  | cons c a ih =>
    simp only [List.cons_append, parseDigits]
    cases digitVal c with
    | none => rfl
    | some v => exact ih _

/-- The digits `Nat.toDigitsCore` puts in front of `ds` are decimal digits that
parse back to `n`. -/
theorem toDigitsCore_parse (fuel n : Nat) (ds : List Char) (h : n < fuel) :
    ∃ pre : List Char, Nat.toDigitsCore 10 fuel n ds = pre ++ ds ∧ pre ≠ [] ∧
      parseDigits pre 0 = some n ∧ ∀ c ∈ pre, 48 ≤ c.toNat := by
  induction fuel generalizing n ds with
  | zero => omega
  | succ fuel ih =>
    have hd := digitVal_digitChar (n % 10) (Nat.mod_lt _ (by decide))
    unfold Nat.toDigitsCore
    by_cases h0 : n / 10 = 0
    · simp only [h0, if_true]
      refine ⟨[Nat.digitChar (n % 10)], rfl, by simp, ?_, ?_⟩
      · simp only [parseDigits, hd.1]
        congr 1
        omega
      · intro c hc
        rw [List.mem_singleton] at hc
        exact hc ▸ hd.2
    · simp only [h0, if_false]
      obtain ⟨pre, h1, h2, h3, h4⟩ := ih (n / 10) (Nat.digitChar (n % 10) :: ds) (by omega)
      refine ⟨pre ++ [Nat.digitChar (n % 10)], by simp [h1], by simp, ?_, ?_⟩
      · rw [parseDigits_append, h3]
        simp only [Option.some_bind, parseDigits, hd.1]
        congr 1
        omega
      · intro c hc
        rcases List.mem_append.mp hc with hc | hc
        · exact h4 c hc
        · rw [List.mem_singleton] at hc
          exact hc ▸ hd.2

theorem repr_data (n : Nat) :
    (Nat.repr n).data ≠ [] ∧ parseDigits (Nat.repr n).data 0 = some n ∧
      ∀ c ∈ (Nat.repr n).data, 48 ≤ c.toNat := by
  obtain ⟨pre, h1, h2, h3, h4⟩ := toDigitsCore_parse (n + 1) n [] (Nat.lt_succ_self n)
  have : (Nat.repr n).data = pre := by
    simp only [Nat.repr, Nat.toDigits, List.asString, h1, List.append_nil]
  rw [this]
  exact ⟨h2, h3, h4⟩

theorem Atoi_of_digits (s : String) (n : Nat) (hne : s.data ≠ [])
    (hparse : parseDigits s.data 0 = some n) (hall : ∀ c ∈ s.data, 48 ≤ c.toNat)
    (hn : n < 2 ^ 63) : Atoi s = .ok (n : Int) := by
  unfold Atoi
  have hparts : (match s.data with
      | '+' :: ds => (false, ds)
      | '-' :: ds => (true, ds)
      | ds => (false, ds)) = (false, s.data) := by
    split
    · next ds h =>
      have := hall '+' (by rw [h]; exact List.mem_cons_self _ _)
      exact absurd this (by decide)
    · next ds h =>
      have := hall '-' (by rw [h]; exact List.mem_cons_self _ _)
      exact absurd this (by decide)
    · rfl
  simp only [hparts, hne, if_false, hparse, intSize]
  have h63 : (2 : Nat) ^ 63 = 9223372036854775808 := by norm_num
  rw [h63] at hn
  simp [hn]

theorem Atoi_repr (n : Nat) (hn : n < 2 ^ 63) : Atoi (Nat.repr n) = .ok (n : Int) :=
  Atoi_of_digits _ n (repr_data n).1 (repr_data n).2.1 (repr_data n).2.2 hn

theorem isDigit_of_digitVal (c : Char) (v : Nat) (h : digitVal c = some v) :
    c.isDigit = true := by
  unfold digitVal at h
  split at h
  · next hc =>
    simp only [Char.isDigit, Bool.and_eq_true, decide_eq_true_eq]
    exact ⟨hc.1, hc.2⟩
  · cases h

theorem all_isDigit_of_parseDigits (ds : List Char) (acc v : Nat)
    (h : parseDigits ds acc = some v) : ds.all Char.isDigit = true := by
  induction ds generalizing acc with
  | nil => rfl
  | cons c ds ih =>
    unfold parseDigits at h
    cases hc : digitVal c with
    | none => rw [hc] at h; cases h
    | some d =>
      rw [hc] at h
      simp only [List.all_cons, Bool.and_eq_true]
      exact ⟨isDigit_of_digitVal c d hc, ih _ h⟩

theorem isDecimalInteger_of_Atoi (s : String) (v : Int) (h : Atoi s = .ok v) :
    odds.isDecimalInteger s = true := by
  unfold Atoi at h
  simp only at h
  unfold odds.isDecimalInteger
  split at h <;> rename_i hs
  · cases h
  · split at h
    · cases h
    · next un hp =>
      have hall := all_isDigit_of_parseDigits _ _ _ hp
      split <;> rename_i heq <;> simp only [heq] at hs hall <;> simp [hs, hall]

end strconv

namespace strings

theorem splitChars_eq (sep : Char) (l : List Char) :
    splitChars sep l = l.takeWhile (fun c => c != sep) ::
      (match l.dropWhile (fun c => c != sep) with
       | [] => []
       | _ :: r => splitChars sep r) := by
  induction l with
  | nil => rfl
  | cons c l ih =>
    by_cases h : c = sep
    · subst h
      simp [splitChars]
    · have hb : (c != sep) = true := by simp [h]
      simp only [splitChars, h, if_false, ih, List.takeWhile_cons, List.dropWhile_cons, hb,
        if_true]

theorem splitChars_ne_nil (sep : Char) (l : List Char) : splitChars sep l ≠ [] := by
  rw [splitChars_eq]; simp

theorem takeWhile_of_not_mem (sep : Char) (l : List Char) (h : sep ∉ l) :
    l.takeWhile (fun c => c != sep) = l ∧ l.dropWhile (fun c => c != sep) = [] := by
  induction l with
  | nil => exact ⟨rfl, rfl⟩
  | cons c l ih =>
    have hc : c ≠ sep := fun hc => h (hc ▸ List.mem_cons_self _ _)
    have hl : sep ∉ l := fun hl => h (List.mem_cons_of_mem _ hl)
    have hb : (c != sep) = true := by simp [hc]
    simp [List.takeWhile_cons, List.dropWhile_cons, hb, ih hl]

theorem splitChars_of_not_mem (sep : Char) (l : List Char) (h : sep ∉ l) :
    splitChars sep l = [l] := by
  rw [splitChars_eq, (takeWhile_of_not_mem sep l h).1, (takeWhile_of_not_mem sep l h).2]

theorem takeWhile_append_sep (sep : Char) (a b : List Char) (h : sep ∉ a) :
    (a ++ sep :: b).takeWhile (fun c => c != sep) = a ∧
      (a ++ sep :: b).dropWhile (fun c => c != sep) = sep :: b := by
  induction a with
  | nil => simp [List.takeWhile_cons, List.dropWhile_cons]
  | cons c a ih =>
    have hc : c ≠ sep := fun hc => h (hc ▸ List.mem_cons_self _ _)
    have hl : sep ∉ a := fun hl => h (List.mem_cons_of_mem _ hl)
    have hb : (c != sep) = true := by simp [hc]
    simp [List.takeWhile_cons, List.dropWhile_cons, hb, ih hl]

theorem splitChars_append_sep (sep : Char) (a b : List Char) (h : sep ∉ a) :
    splitChars sep (a ++ sep :: b) = a :: splitChars sep b := by
  rw [splitChars_eq, (takeWhile_append_sep sep a b h).1, (takeWhile_append_sep sep a b h).2]

end strings

/-! ## Lemmas on `convertEvent` -/

namespace pipeline

/-- The decoding of one option in terms of the first two fields of its odds. -/
theorem convertOption_eq (marketId : Int) (o : datasrc.Option) :
    convertOption marketId o =
      match strings.Split o.Odds '/' with
      | a :: b :: _ =>
        (match strconv.Atoi a with
         | .error _ => .error (oddsError o.Odds marketId)
         | .ok num =>
           match strconv.Atoi b with
           | .error _ => .error (oddsError o.Odds marketId)
           | .ok den => .ok { Id := o.Id, Name := o.Name, Num := num, Den := den })
      | _ => .error (oddsError o.Odds marketId) := by
  have aux : ∀ fields : List String,
      (if h : fields.length < 2 then (.error (oddsError o.Odds marketId) : Except String Option)
       else
         match strconv.Atoi fields[0] with
         | .error _ => .error (oddsError o.Odds marketId)
         | .ok num =>
           match strconv.Atoi fields[1] with
           | .error _ => .error (oddsError o.Odds marketId)
           | .ok den => .ok { Id := o.Id, Name := o.Name, Num := num, Den := den }) =
      match fields with
      | a :: b :: _ =>
        (match strconv.Atoi a with
         | .error _ => .error (oddsError o.Odds marketId)
         | .ok num =>
           match strconv.Atoi b with
           | .error _ => .error (oddsError o.Odds marketId)
           | .ok den => .ok { Id := o.Id, Name := o.Name, Num := num, Den := den })
      | _ => .error (oddsError o.Odds marketId) := by
    intro fields
    match fields with
    | [] => simp
    | [a] => simp
    | a :: b :: rest => simp
  exact aux _

theorem convertOptions_ok (marketId : Int) (os : List datasrc.Option)
    (acc r : List pipeline.Option) (h : convertOptions marketId os acc = .ok r) :
    ∃ r1, r = acc ++ r1 ∧
      List.Forall₂ (fun o po => convertOption marketId o = .ok po) os r1 := by
  induction os generalizing acc with
  | nil =>
    simp only [convertOptions, Except.ok.injEq] at h
    exact ⟨[], by simp [h], List.Forall₂.nil⟩
  | cons o os ih =>
    unfold convertOptions at h
    cases ho : convertOption marketId o with
    | error err => rw [ho] at h; cases h
    | ok po =>
      rw [ho] at h
      obtain ⟨r1, hr, hf⟩ := ih _ h
      exact ⟨po :: r1, by simp [hr], List.Forall₂.cons ho hf⟩

theorem convertOptions_error (marketId : Int) (os : List datasrc.Option)
    (acc : List pipeline.Option) (o : datasrc.Option) (err : String) (ho : o ∈ os)
    (hbad : convertOption marketId o = .error err) :
    ∃ err1, convertOptions marketId os acc = .error err1 := by
  induction os generalizing acc with
  | nil => cases ho
  | cons o1 os ih =>
    unfold convertOptions
    cases h1 : convertOption marketId o1 with
    | error err1 => exact ⟨err1, rfl⟩
    | ok po =>
      rcases List.mem_cons.mp ho with h | h
      · subst h; rw [hbad] at h1; cases h1
      · exact ih _ h

theorem convertOptions_total (marketId : Int) (os : List datasrc.Option)
    (acc r1 : List pipeline.Option)
    (h : List.Forall₂ (fun o po => convertOption marketId o = .ok po) os r1) :
    convertOptions marketId os acc = .ok (acc ++ r1) := by
  induction h generalizing acc with
  | nil => simp [convertOptions]
  | cons ho _ ih =>
    unfold convertOptions
    rw [ho]
    simp only
    rw [ih]
    simp

theorem convertMarkets_ok (e : EventStream) (ids : List Int) (acc r : List Market)
    (h : convertMarkets e ids acc = .ok r) :
    ∃ r1, r = acc ++ r1 ∧ List.Forall₂ (MarketConverted e) ids r1 := by
  induction ids generalizing acc with
  | nil =>
    simp only [convertMarkets, Except.ok.injEq] at h
    exact ⟨[], by simp [h], List.Forall₂.nil⟩
  | cons marketId ids ih =>
    unfold convertMarkets at h
    cases hm : e.marketSrc.GetByID marketId with
    | error err => rw [hm] at h; cases h
    | ok m =>
      rw [hm] at h
      simp only at h
      cases ho : convertOptions marketId m.Options [] with
      | error err => rw [ho] at h; cases h
      | ok options =>
        rw [ho] at h
        obtain ⟨r1, hr, hf⟩ := ih _ h
        obtain ⟨o1, ho1, hfo⟩ := convertOptions_ok _ _ _ _ ho
        have hmc : MarketConverted e marketId
            { Id := m.Id, «Type» := m.«Type», Options := options } :=
          ⟨m, hm, rfl, rfl, by simpa [ho1] using hfo⟩
        exact ⟨_ :: r1, by simp [hr], List.Forall₂.cons hmc hf⟩

theorem convertMarkets_error (e : EventStream) (ids : List Int) (acc : List Market)
    (marketId : Int) (m : datasrc.Market) (o : datasrc.Option) (err : String)
    (hid : marketId ∈ ids) (hm : e.marketSrc.GetByID marketId = .ok m) (ho : o ∈ m.Options)
    (hbad : convertOption marketId o = .error err) :
    ∃ err1, convertMarkets e ids acc = .error err1 := by
  induction ids generalizing acc with
  | nil => cases hid
  | cons id1 ids ih =>
    unfold convertMarkets
    cases h1 : e.marketSrc.GetByID id1 with
    | error err1 => exact ⟨err1, rfl⟩
    | ok m1 =>
      simp only
      cases h2 : convertOptions id1 m1.Options [] with
      | error err1 => exact ⟨err1, rfl⟩
      | ok options =>
        simp only
        rcases List.mem_cons.mp hid with h | h
        · subst h
          rw [hm] at h1
          cases h1
          obtain ⟨err1, he⟩ := convertOptions_error marketId m.Options [] o err ho hbad
          rw [he] at h2; cases h2
        · exact ih _ h

theorem convertEvent_ok (e : EventStream) (event : datasrc.Event) (product : Event)
    (h : e.convertEvent event = .ok product) :
    product.Id = strconv.Itoa event.Id ∧ product.Name = event.Name ∧
      product.Time = event.Time ∧
      List.Forall₂ (MarketConverted e) event.Markets product.Markets := by
  unfold EventStream.convertEvent at h
  cases hm : convertMarkets e event.Markets [] with
  | error err => rw [hm] at h; cases h
  | ok markets =>
    rw [hm] at h
    simp only [Except.ok.injEq] at h
    obtain ⟨r1, hr, hf⟩ := convertMarkets_ok _ _ _ _ hm
    subst h
    simp only [List.nil_append] at hr
    subst hr
    exact ⟨rfl, rfl, rfl, hf⟩

theorem convertEvent_error (e : EventStream) (event : datasrc.Event)
    (marketId : Int) (m : datasrc.Market) (o : datasrc.Option) (err : String)
    (hid : marketId ∈ event.Markets) (hm : e.marketSrc.GetByID marketId = .ok m)
    (ho : o ∈ m.Options) (hbad : convertOption marketId o = .error err) :
    ∃ err1, e.convertEvent event = .error err1 := by
  obtain ⟨err1, he⟩ := convertMarkets_error e event.Markets [] marketId m o err hid hm ho hbad
  exact ⟨err1, by simp only [EventStream.convertEvent, he]⟩

theorem forall₂_getElem? {α β : Type} {R : α → β → Prop} {l1 : List α} {l2 : List β}
    (h : List.Forall₂ R l1 l2) (i : Nat) (a : α) (ha : l1[i]? = some a) :
    ∃ b, l2[i]? = some b ∧ R a b := by
  induction h generalizing i with
  | nil => simp at ha
  | cons hab _ ih =>
    cases i with
    | zero =>
      simp only [List.getElem?_cons_zero, Option.some.injEq] at ha
      subst ha
      exact ⟨_, by simp, hab⟩
    | succ i =>
      simp only [List.getElem?_cons_succ] at ha ⊢
      exact ih i ha

theorem convertOption_ok (marketId : Int) (o : datasrc.Option) (po : pipeline.Option)
    (h : convertOption marketId o = .ok po) :
    po.Id = o.Id ∧ po.Name = o.Name ∧
      ∃ a b rest, strings.Split o.Odds '/' = a :: b :: rest ∧
        strconv.Atoi a = .ok po.Num ∧ strconv.Atoi b = .ok po.Den := by
  rw [convertOption_eq] at h
  split at h
  · next a b rest hs =>
    cases ha : strconv.Atoi a with
    | error x => rw [ha] at h; cases h
    | ok num =>
      cases hb : strconv.Atoi b with
      | error x => rw [ha, hb] at h; cases h
      | ok den =>
        rw [ha, hb] at h
        simp only [Except.ok.injEq] at h
        subst h
        exact ⟨rfl, rfl, a, b, rest, hs, ha, hb⟩
  · cases h

theorem convertOption_of_fields (marketId : Int) (o : datasrc.Option) (a b : String)
    (rest : List String) (num den : Int) (hs : strings.Split o.Odds '/' = a :: b :: rest)
    (ha : strconv.Atoi a = .ok num) (hb : strconv.Atoi b = .ok den) :
    convertOption marketId o = .ok { Id := o.Id, Name := o.Name, Num := num, Den := den } := by
  rw [convertOption_eq, hs]
  simp only [ha, hb]

theorem Split_fields (s : String) :
    strings.Split s '/' = [odds.numeratorPart s] ∨
      ∃ rest, strings.Split s '/' = odds.numeratorPart s :: odds.denominatorPart s :: rest := by
  unfold strings.Split odds.numeratorPart odds.denominatorPart
  rw [strings.splitChars_eq]
  cases h : s.data.dropWhile (fun c => c != '/') with
  | nil => left; rfl
  | cons c r =>
    right
    simp only [List.drop_succ_cons, List.drop_zero]
    rw [strings.splitChars_eq]
    exact ⟨_, rfl⟩

theorem Split_of_no_separator (s : String) (h : '/' ∉ s.data) :
    strings.Split s '/' = [s] := by
  unfold strings.Split
  rw [strings.splitChars_of_not_mem _ _ h]
  rfl

theorem Split_repr (n d : Nat) :
    strings.Split (Nat.repr n ++ "/" ++ Nat.repr d) '/' = [Nat.repr n, Nat.repr d] := by
  have hn : '/' ∉ (Nat.repr n).data := fun h =>
    absurd ((strconv.repr_data n).2.2 _ h) (by decide)
  have hd : '/' ∉ (Nat.repr d).data := fun h =>
    absurd ((strconv.repr_data d).2.2 _ h) (by decide)
  have hdata : (Nat.repr n ++ "/" ++ Nat.repr d).data
      = (Nat.repr n).data ++ '/' :: (Nat.repr d).data := by
    simp [String.data_append]
  unfold strings.Split
  rw [hdata, strings.splitChars_append_sep _ _ _ hn, strings.splitChars_of_not_mem _ _ hd]
  rfl

/-- An option fails to decode when its odds have no separator or a part that is
not a decimal integer. -/
theorem convertOption_error_of_bad (marketId : Int) (o : datasrc.Option)
    (hbad : '/' ∉ o.Odds.data ∨ odds.isDecimalInteger (odds.numeratorPart o.Odds) = false ∨
      odds.isDecimalInteger (odds.denominatorPart o.Odds) = false) :
    convertOption marketId o = .error (oddsError o.Odds marketId) := by
  rw [convertOption_eq]
  rcases hbad with h | h | h
  · rw [Split_of_no_separator _ h]
  · rcases Split_fields o.Odds with hs | ⟨rest, hs⟩
    · rw [hs]
    · rw [hs]
      simp only
      cases ha : strconv.Atoi (odds.numeratorPart o.Odds) with
      | error x => rfl
      | ok num =>
        rw [strconv.isDecimalInteger_of_Atoi _ _ ha] at h
        cases h
  · rcases Split_fields o.Odds with hs | ⟨rest, hs⟩
    · rw [hs]
    · rw [hs]
      simp only
      cases ha : strconv.Atoi (odds.numeratorPart o.Odds) with
      | error x => rfl
      | ok num =>
        simp only
        cases hb : strconv.Atoi (odds.denominatorPart o.Odds) with
        | error x => rfl
        | ok den =>
          rw [strconv.isDecimalInteger_of_Atoi _ _ hb] at h
          cases h

theorem convertOption_error_of_fields (marketId : Int) (o : datasrc.Option)
    (h : (strings.Split o.Odds '/').length < 2) :
    convertOption marketId o = .error (oddsError o.Odds marketId) := by
  rw [convertOption_eq]
  split
  · next a b rest hs => rw [hs] at h; simp at h; omega
  · rfl

end pipeline

namespace pipeline

theorem convertOptions_isOk (marketId : Int) (os : List datasrc.Option)
    (acc : List pipeline.Option)
    (h : ∀ o ∈ os, ∃ po, convertOption marketId o = .ok po) :
    ∃ r, convertOptions marketId os acc = .ok r := by
  induction os generalizing acc with
  | nil => exact ⟨acc, rfl⟩
  | cons o os ih =>
    obtain ⟨po, hpo⟩ := h o (List.mem_cons_self _ _)
    unfold convertOptions
    rw [hpo]
    exact ih _ (fun o1 ho1 => h o1 (List.mem_cons_of_mem _ ho1))

theorem convertMarkets_isOk (e : EventStream) (ids : List Int) (acc : List Market)
    (h : ∀ marketId ∈ ids, ∃ m, e.marketSrc.GetByID marketId = .ok m ∧
      ∀ o ∈ m.Options, ∃ po, convertOption marketId o = .ok po) :
    ∃ r, convertMarkets e ids acc = .ok r := by
  induction ids generalizing acc with
  | nil => exact ⟨acc, rfl⟩
  | cons marketId ids ih =>
    obtain ⟨m, hm, hopts⟩ := h marketId (List.mem_cons_self _ _)
    obtain ⟨options, ho⟩ := convertOptions_isOk marketId m.Options [] hopts
    unfold convertMarkets
    rw [hm]
    simp only [ho]
    exact ih _ (fun id1 h1 => h id1 (List.mem_cons_of_mem _ h1))

/-- A conversion succeeds exactly when every referenced market is fetched and
every option of every such market decodes. -/
theorem convertEvent_isOk_iff (e : EventStream) (event : datasrc.Event) :
    (∃ product, e.convertEvent event = .ok product) ↔
      ∀ marketId ∈ event.Markets, ∃ m, e.marketSrc.GetByID marketId = .ok m ∧
        ∀ o ∈ m.Options, ∃ po, convertOption marketId o = .ok po := by
  constructor
  · rintro ⟨product, h⟩ marketId hid
    obtain ⟨i, hi⟩ := List.mem_iff_getElem?.mp hid
    obtain ⟨pm, _, m, hm, _, _, hopts⟩ :=
      forall₂_getElem? (convertEvent_ok e event product h).2.2.2 i marketId hi
    refine ⟨m, hm, ?_⟩
    intro o ho
    obtain ⟨j, hj⟩ := List.mem_iff_getElem?.mp ho
    obtain ⟨po, _, hpo⟩ := forall₂_getElem? hopts j o hj
    exact ⟨po, hpo⟩
  · intro h
    obtain ⟨markets, hm⟩ := convertMarkets_isOk e event.Markets [] h
    exact ⟨{ Id := strconv.Itoa event.Id, Name := event.Name, Time := event.Time,
             Markets := markets }, by simp only [EventStream.convertEvent, hm]⟩

end pipeline

/-! ## Odds decoding and event conversion -/

namespace pipeline

/-- C4, as stated, fails: the decimal text of 2^63 does not fit Go's `int`, so
`strconv.Atoi` reports a range error and the event is not converted. -/
theorem C4_counterexample :
    Nat.repr (2 ^ 63) ++ "/" ++ Nat.repr 1 = "9223372036854775808/1" ∧
      (fixtures.streamWithOdds "9223372036854775808/1").convertEvent fixtures.eventWithMarket
        = .error (oddsError "9223372036854775808/1" 101) := by
  decide

/-- C4 (amended): for all natural numbers `n` and `d` below 2^63, an option whose
odds string is the decimal text of `n`, then `/`, then the decimal text of `d` is
decoded into an option with `Num = n` and `Den = d` (identifier and name copied),
and that is the option found at its position in every successful conversion by
`convertEvent` of an event referring to its market. -/
theorem C4_odds_decoding (n d : Nat) (hn : n < 2 ^ 63) (hd : d < 2 ^ 63)
    (marketId : Int) (o : datasrc.Option) (ho : o.Odds = Nat.repr n ++ "/" ++ Nat.repr d) :
    convertOption marketId o = .ok { Id := o.Id, Name := o.Name, Num := n, Den := d } ∧
      ∀ (e : EventStream) (event : datasrc.Event) (product : Event) (i j : Nat)
        (m : datasrc.Market),
        e.convertEvent event = .ok product → event.Markets[i]? = some marketId →
        e.marketSrc.GetByID marketId = .ok m → m.Options[j]? = some o →
        ∃ pm po, product.Markets[i]? = some pm ∧ pm.Options[j]? = some po ∧
          po.Num = n ∧ po.Den = d := by
  have hopt : convertOption marketId o
      = .ok { Id := o.Id, Name := o.Name, Num := n, Den := d } :=
    convertOption_of_fields marketId o (Nat.repr n) (Nat.repr d) [] n d
      (by rw [ho]; exact Split_repr n d) (strconv.Atoi_repr n hn) (strconv.Atoi_repr d hd)
  refine ⟨hopt, ?_⟩
  intro e event product i j m hconv hi hm hj
  obtain ⟨pm, hpm, m1, hm1, _, _, hopts⟩ :=
    forall₂_getElem? (convertEvent_ok e event product hconv).2.2.2 i marketId hi
  rw [hm] at hm1
  cases hm1
  obtain ⟨po, hpo, hconvo⟩ := forall₂_getElem? hopts j o hj
  rw [hopt] at hconvo
  cases hconvo
  exact ⟨pm, _, hpm, hpo, rfl, rfl⟩

/-- Witness of C4: the odds `3/5` of the test fixture decode to numerator 3, denominator 5. -/
theorem C4_odds_decoding_witness :
    convertOption 101 { Id := "10101", Name := "Southampton", Odds := "3/5" }
      = .ok { Id := "10101", Name := "Southampton", Num := 3, Den := 5 } :=
  (C4_odds_decoding 3 5 (by norm_num) (by norm_num) 101
    { Id := "10101", Name := "Southampton", Odds := "3/5" } (by decide)).1

/-- C5: when an event refers to a market (successfully fetched) that has an
option whose odds string contains no `/`, or whose numerator part or denominator
part is not a decimal integer, `convertEvent` returns an error and no event, and
the converting goroutine goes back to receiving without offering anything. -/
theorem C5_odds_decode_failure (e : EventStream) (event : datasrc.Event) (marketId : Int)
    (m : datasrc.Market) (o : datasrc.Option) (hid : marketId ∈ event.Markets)
    (hm : e.marketSrc.GetByID marketId = .ok m) (ho : o ∈ m.Options)
    (hbad : '/' ∉ o.Odds.data ∨ odds.isDecimalInteger (odds.numeratorPart o.Odds) = false ∨
      odds.isDecimalInteger (odds.denominatorPart o.Odds) = false) :
    (∃ err, e.convertEvent event = .error err) ∧ e.converted event = .receiving := by
  obtain ⟨err, herr⟩ := convertEvent_error e event marketId m o _ hid hm ho
    (convertOption_error_of_bad marketId o hbad)
  exact ⟨⟨err, herr⟩, by simp only [EventStream.converted, herr]⟩

/-- Witness of C5: the odds `x/5` have a numerator part that is not a decimal integer. -/
theorem C5_odds_decode_failure_witness :
    (∃ err, (fixtures.streamWithOdds "x/5").convertEvent fixtures.eventWithMarket = .error err) ∧
      (fixtures.streamWithOdds "x/5").converted fixtures.eventWithMarket = .receiving :=
  C5_odds_decode_failure (fixtures.streamWithOdds "x/5") fixtures.eventWithMarket 101
    { Id := "101", «Type» := "win-draw-win",
      Options := [{ Id := "10101", Name := "Southampton", Odds := "x/5" }] }
    { Id := "10101", Name := "Southampton", Odds := "x/5" }
    (by decide) rfl (by decide) (by decide)

/-- C6, as stated, fails: the odds `1/2/3` split into three fields, and the event
is converted all the same, with numerator 1 and denominator 2. -/
theorem C6_counterexample :
    strings.Split "1/2/3" '/' = ["1", "2", "3"] ∧
      (fixtures.streamWithOdds "1/2/3").convertEvent fixtures.eventWithMarket
        = .ok (fixtures.productWithOdds 1 2) := by
  decide

/-- C6 (amended): when an event refers to a market (successfully fetched) that
has an option whose odds string splits on `/` into fewer than two fields,
`convertEvent` fails and the whole event is dropped: the converting goroutine
goes back to receiving without offering anything. -/
theorem C6_fewer_than_two_fields (e : EventStream) (event : datasrc.Event) (marketId : Int)
    (m : datasrc.Market) (o : datasrc.Option) (hid : marketId ∈ event.Markets)
    (hm : e.marketSrc.GetByID marketId = .ok m) (ho : o ∈ m.Options)
    (hfields : (strings.Split o.Odds '/').length < 2) :
    (∃ err, e.convertEvent event = .error err) ∧ e.converted event = .receiving := by
  obtain ⟨err, herr⟩ := convertEvent_error e event marketId m o _ hid hm ho
    (convertOption_error_of_fields marketId o hfields)
  exact ⟨⟨err, herr⟩, by simp only [EventStream.converted, herr]⟩

/-- Witness of C6: the odds `5` make a single field. -/
theorem C6_fewer_than_two_fields_witness :
    (∃ err, (fixtures.streamWithOdds "5").convertEvent fixtures.eventWithMarket = .error err) ∧
      (fixtures.streamWithOdds "5").converted fixtures.eventWithMarket = .receiving :=
  C6_fewer_than_two_fields (fixtures.streamWithOdds "5") fixtures.eventWithMarket 101
    { Id := "101", «Type» := "win-draw-win",
      Options := [{ Id := "10101", Name := "Southampton", Odds := "5" }] }
    { Id := "10101", Name := "Southampton", Odds := "5" }
    (by decide) rfl (by decide) (by decide)

/-- C7: in a successful conversion the markets of the normalized event match the
market identifiers of the source event position by position (same number, the
i-th built from the market fetched for the i-th identifier, `Id` and `Type`
copied), and the options of each market match the source options position by
position (same number, `Id` and `Name` of the j-th copied). -/
theorem C7_order_preservation (e : EventStream) (event : datasrc.Event) (product : Event)
    (h : e.convertEvent event = .ok product) :
    product.Markets.length = event.Markets.length ∧
      ∀ (i : Nat) (marketId : Int), event.Markets[i]? = some marketId →
        ∃ m pm, e.marketSrc.GetByID marketId = .ok m ∧ product.Markets[i]? = some pm ∧
          pm.Id = m.Id ∧ pm.«Type» = m.«Type» ∧ pm.Options.length = m.Options.length ∧
          ∀ (j : Nat) (o : datasrc.Option), m.Options[j]? = some o →
            ∃ po, pm.Options[j]? = some po ∧ po.Id = o.Id ∧ po.Name = o.Name := by
  have hf := (convertEvent_ok e event product h).2.2.2
  refine ⟨hf.length_eq.symm, ?_⟩
  intro i marketId hi
  obtain ⟨pm, hpm, m, hm, hid, hty, hopts⟩ := forall₂_getElem? hf i marketId hi
  refine ⟨m, pm, hm, hpm, hid, hty, hopts.length_eq.symm, ?_⟩
  intro j o hj
  obtain ⟨po, hpo, hconv⟩ := forall₂_getElem? hopts j o hj
  have hc := convertOption_ok marketId o po hconv
  exact ⟨po, hpo, hc.1, hc.2.1⟩

/-- Witness of C7: source event 1 of the test, markets `[101, 102]` with three options each. -/
theorem C7_order_preservation_witness :
    fixtures.event1.Markets.length = 2 ∧
      ∀ (i : Nat) (marketId : Int), ([101, 102] : List Int)[i]? = some marketId →
        ∃ m pm, fixtures.stream.marketSrc.GetByID marketId = .ok m ∧
          fixtures.event1.Markets[i]? = some pm ∧
          pm.Id = m.Id ∧ pm.«Type» = m.«Type» ∧ pm.Options.length = m.Options.length ∧
          ∀ (j : Nat) (o : datasrc.Option), m.Options[j]? = some o →
            ∃ po, pm.Options[j]? = some po ∧ po.Id = o.Id ∧ po.Name = o.Name :=
  C7_order_preservation fixtures.stream
    { Id := 1, Name := "Southampton v Bournemouth",
      Time := { unixNano := 1503241200000000000 }, Markets := [101, 102] }
    fixtures.event1 (by decide)

/-! ## Delivery sink -/

/-- C9, as stated, fails: the 200-level status 201 is reported as a write failure. -/
theorem C9_counterexample :
    ((200 : Int) ≤ 201 ∧ (201 : Int) ≤ 299) ∧
      (fixtures.storeAnswering 201 "201 Created").Create fixtures.event1 ≠ .ok () := by
  decide

/-- C9 (amended): for every response returned by the store, `EventStore.Create`
reports success exactly when the status code is 200; every other status, the
other 200-level ones included, is reported as a write failure. -/
theorem C9_store_acknowledgment (store : EventStore) (event : Event) (resp : Response)
    (h : store.post event = .ok resp) :
    (store.Create event = .ok () ↔ resp.StatusCode = 200) ∧
      (resp.StatusCode ≠ 200 → ∃ err, store.Create event = .error err) := by
  unfold EventStore.Create
  rw [h]
  by_cases hc : resp.StatusCode = 200
  · simp [hc, StatusOK]
  · simp [hc, StatusOK]

/-- Witness of C9: a store answering 200 acknowledges the event. -/
theorem C9_store_acknowledgment_witness :
    (fixtures.storeAnswering 200 "200 OK").Create fixtures.event1 = .ok () :=
  ((C9_store_acknowledgment (fixtures.storeAnswering 200 "200 OK") fixtures.event1
    { StatusCode := 200, Status := "200 OK" } rfl).1).mpr rfl

end pipeline

/-! ## The stream end to end -/

namespace pipeline

theorem ProcessAll_append (eventStore : EventStore) (l : List Event) (product : Event) :
    EventSink.ProcessAll eventStore (l ++ [product])
      = EventSink.ProcessAll eventStore l ++ [(product, eventStore.Create product)] := by
  induction l with
  | nil => rfl
  | cons a l ih => simp [EventSink.ProcessAll, ih]

theorem ProcessAll_append_list (eventStore : EventStore) (l r : List Event) :
    EventSink.ProcessAll eventStore (l ++ r)
      = EventSink.ProcessAll eventStore l ++ EventSink.ProcessAll eventStore r := by
  induction l with
  | nil => rfl
  | cons a l ih => simp [EventSink.ProcessAll, ih]

theorem ProcessAll_map_fst (eventStore : EventStore) (l : List Event) :
    (EventSink.ProcessAll eventStore l).map Prod.fst = l := by
  induction l with
  | nil => rfl
  | cons a l ih => simp [EventSink.ProcessAll, ih]

theorem step_terminated (e : EventStream) (eventStore : EventStore) (s : Wiring) (a : Action)
    (h : (e.step eventStore s a).terminated = false) : s.terminated = false := by
  cases a <;> simp only [EventStream.step] at h <;> (try split at h) <;> first
    | exact h
    | cases h

theorem foldl_step_terminated (e : EventStream) (eventStore : EventStore) (schedule : List Action)
    (s : Wiring) (h : (schedule.foldl (e.step eventStore) s).terminated = false) :
    s.terminated = false := by
  induction schedule generalizing s with
  | nil => exact h
  | cons a schedule ih => exact step_terminated e eventStore s a (ih _ h)

theorem Inv_init (e : EventStream) (eventStore : EventStore) (ids : List Int) :
    Wiring.Inv e eventStore ids (Wiring.init ids) := by
  refine ⟨?_, rfl, ?_, ?_, ?_⟩ <;> simp [Wiring.init, Wiring.inFlight]

theorem Inv_step (e : EventStream) (eventStore : EventStore) (ids : List Int) (s : Wiring)
    (a : Action) (hinv : Wiring.Inv e eventStore ids s) (ht : s.terminated = false) :
    a = .close ∨ Wiring.Inv e eventStore ids (e.step eventStore s a) := by
  obtain ⟨newIds, fetching, converting, terminated, stored, sinkReturned⟩ := s
  obtain ⟨hflow, hout, hf, hc, hs⟩ := hinv
  simp only at ht hf hc hs hout
  subst ht
  cases a
  case close => exact Or.inl rfl
  case receiveId =>
    right
    cases fetching <;> cases newIds <;>
      simp only [EventStream.step] <;> try exact ⟨hflow, hout, hf, hc, hs⟩
    next id rest =>
      refine ⟨?_, hout, ?_, ?_, hs⟩
      · simp only [Wiring.inFlight, EventStream.conversions, EventStream.fetched] at hflow ⊢
        rw [← hflow]
        cases e.eventSrc.GetByID id with
        | error err => rfl
        | ok event =>
          simp only
          cases e.convertEvent event <;> simp
      · simp only [EventStream.fetched]
        cases e.eventSrc.GetByID id <;> simp
      · intro h
        have := hc h
        cases this
  case inputClosed =>
    right
    cases fetching <;> cases newIds <;>
      simp only [EventStream.step] <;> try exact ⟨hflow, hout, hf, hc, hs⟩
    exact ⟨by simpa [Wiring.inFlight] using hflow, hout, fun _ => rfl, fun _ => rfl, hs⟩
  case handOver =>
    right
    cases fetching <;> cases converting <;>
      simp only [EventStream.step] <;> try exact ⟨hflow, hout, hf, hc, hs⟩
    next event =>
      refine ⟨?_, hout, ?_, ?_, ?_⟩
      · simp only [Wiring.inFlight, EventStream.converted] at hflow ⊢
        rw [← hflow]
        cases e.convertEvent event <;> simp
      · intro h; cases h
      · simp only [EventStream.converted]
        cases e.convertEvent event <;> simp
      · intro h
        have := hs h
        cases this
  case bufferClosed =>
    right
    cases fetching <;> cases converting <;>
      simp only [EventStream.step] <;> try exact ⟨hflow, hout, hf, hc, hs⟩
    exact ⟨by simpa [Wiring.inFlight] using hflow, hout, hf, fun _ => rfl, fun _ => rfl⟩
  case deliver =>
    right
    cases converting <;> cases sinkReturned <;>
      simp only [EventStream.step] <;> try exact ⟨hflow, hout, hf, hc, hs⟩
    next product =>
      refine ⟨?_, ?_, hf, ?_, ?_⟩
      · simp only [Wiring.inFlight] at hflow ⊢
        rw [← hflow]
        simp
      · simp only [List.map_append, List.map_cons, List.map_nil, ProcessAll_append]
        rw [← hout]
      · intro h; cases h
      · intro h; cases h
  case outputClosed =>
    right
    cases converting <;>
      simp only [EventStream.step] <;> try exact ⟨hflow, hout, hf, hc, hs⟩
    exact ⟨hflow, hout, hf, hc, fun _ => rfl⟩
  case fetchCancelled =>
    right
    cases fetching <;> simp only [EventStream.step] <;> exact ⟨hflow, hout, hf, hc, hs⟩
  case convertCancelled =>
    right
    cases converting <;> simp only [EventStream.step] <;> exact ⟨hflow, hout, hf, hc, hs⟩

end pipeline

namespace pipeline

theorem Inv_foldl (e : EventStream) (eventStore : EventStore) (ids : List Int)
    (schedule : List Action) (s : Wiring) (hinv : Wiring.Inv e eventStore ids s)
    (h : (schedule.foldl (e.step eventStore) s).terminated = false) :
    Wiring.Inv e eventStore ids (schedule.foldl (e.step eventStore) s) := by
  induction schedule generalizing s with
  | nil => exact hinv
  | cons a schedule ih =>
    have h1 : (e.step eventStore s a).terminated = false :=
      foldl_step_terminated e eventStore schedule _ h
    have h0 : s.terminated = false := step_terminated e eventStore s a h1
    rcases Inv_step e eventStore ids s a hinv h0 with hc | hstep
    · subst hc
      simp [EventStream.step] at h1
    · exact ih _ hstep h

/-- With both goroutines and the sink at their `range`, some schedule takes the
rest of the identifiers through the stream and stores their conversions. -/
theorem drain (e : EventStream) (eventStore : EventStore) (ids : List Int)
    (stored : List (Event × Except String Unit)) :
    ∃ schedule : List Action,
      schedule.foldl (e.step eventStore)
          { newIds := ids, fetching := .receiving, converting := .receiving,
            terminated := false, stored := stored, sinkReturned := false }
        = { newIds := [], fetching := .receiving, converting := .receiving,
            terminated := false,
            stored := stored ++ EventSink.ProcessAll eventStore (e.conversions ids),
            sinkReturned := false } := by
  induction ids generalizing stored with
  | nil => exact ⟨[], by simp [EventStream.conversions, EventSink.ProcessAll]⟩
  | cons id rest ih =>
    cases hf : e.eventSrc.GetByID id with
    | error err =>
      obtain ⟨schedule, hs⟩ := ih stored
      refine ⟨.receiveId :: schedule, ?_⟩
      simp only [List.foldl_cons, EventStream.step, EventStream.fetched, hf,
        EventStream.conversions]
      exact hs
    | ok event =>
      cases hc : e.convertEvent event with
      | error err =>
        obtain ⟨schedule, hs⟩ := ih stored
        refine ⟨.receiveId :: .handOver :: schedule, ?_⟩
        simp only [List.foldl_cons, EventStream.step, EventStream.fetched, hf,
          EventStream.converted, hc, EventStream.conversions]
        exact hs
      | ok product =>
        obtain ⟨schedule, hs⟩ := ih (stored ++ [(product, eventStore.Create product)])
        refine ⟨.receiveId :: .handOver :: .deliver :: schedule, ?_⟩
        simp only [List.foldl_cons, EventStream.step, EventStream.fetched, hf,
          EventStream.converted, hc, EventStream.conversions]
        rw [hs]
        simp [EventSink.ProcessAll]

/-- A state in which no loop can move, and whose closed channels were closed in
order, is one in which the sink has returned. -/
theorem quiescent_returned (e : EventStream) (eventStore : EventStore) (s : Wiring)
    (hc : s.converting = .returned → s.fetching = .returned)
    (hs : s.sinkReturned = true → s.converting = .returned)
    (hq : ∀ a : Action, a ≠ .close → e.step eventStore s a = s) :
    s.sinkReturned = true := by
  obtain ⟨newIds, fetching, converting, terminated, stored, sinkReturned⟩ := s
  have q1 := hq .receiveId (by decide)
  have q2 := hq .inputClosed (by decide)
  have q3 := hq .handOver (by decide)
  have q4 := hq .bufferClosed (by decide)
  have q5 := hq .deliver (by decide)
  have q6 := hq .outputClosed (by decide)
  clear hq
  simp only at hc hs ⊢
  cases fetching with
  | receiving =>
    cases newIds with
    | nil => simp [EventStream.step] at q2
    | cons id rest =>
      simp only [EventStream.step, Wiring.mk.injEq] at q1
      exact absurd q1.1.symm (List.cons_ne_self id rest)
  | sending event =>
    cases converting with
    | receiving => simp [EventStream.step] at q3
    | sending product =>
      cases sinkReturned with
      | false => simp [EventStream.step] at q5
      | true => exact absurd (hs rfl) (by simp)
    | returned => exact absurd (hc rfl) (by simp)
  | returned =>
    cases converting with
    | receiving => simp [EventStream.step] at q4
    | sending product =>
      cases sinkReturned with
      | false => simp [EventStream.step] at q5
      | true => exact absurd (hs rfl) (by simp)
    | returned =>
      cases sinkReturned with
      | false => simp [EventStream.step] at q6
      | true => rfl

/-- C8: whatever the interleaving of the two goroutines of `EventStream.process`
and the sink, as long as the stream is not cancelled the `Create` calls made so
far are an initial segment of the conversions, in identifier order, of the
identifiers whose event fetch and conversion succeed; once `ProcessAll` has
returned they are exactly those; a state in which no loop can move is one in
which `ProcessAll` has returned; and some interleaving gets there.  A conversion
succeeds exactly when every referenced market is fetched and every option of it
decodes. -/
theorem C8_end_to_end (e : EventStream) (eventStore : EventStore) (ids : List Int) :
    (∀ schedule : List Action, (e.run eventStore ids schedule).terminated = false →
      (∃ k, (e.run eventStore ids schedule).stored
          = (EventSink.ProcessAll eventStore (e.conversions ids)).take k) ∧
      ((e.run eventStore ids schedule).sinkReturned = true →
        (e.run eventStore ids schedule).stored
          = EventSink.ProcessAll eventStore (e.conversions ids)) ∧
      ((∀ a : Action, a ≠ .close →
          e.step eventStore (e.run eventStore ids schedule) a = e.run eventStore ids schedule) →
        (e.run eventStore ids schedule).sinkReturned = true)) ∧
    (∃ schedule : List Action, (e.run eventStore ids schedule).terminated = false ∧
      (e.run eventStore ids schedule).sinkReturned = true) ∧
    (∀ event : datasrc.Event, (∃ product, e.convertEvent event = .ok product) ↔
      ∀ marketId ∈ event.Markets, ∃ m, e.marketSrc.GetByID marketId = .ok m ∧
        ∀ o ∈ m.Options, ∃ po, convertOption marketId o = .ok po) := by
  refine ⟨?_, ?_, convertEvent_isOk_iff e⟩
  · intro schedule ht
    have hinv := Inv_foldl e eventStore ids schedule _ (Inv_init e eventStore ids) ht
    unfold EventStream.run at ht ⊢
    generalize schedule.foldl (e.step eventStore) (Wiring.init ids) = s at hinv ht ⊢
    obtain ⟨newIds, fetching, converting, terminated, stored, sinkReturned⟩ := s
    obtain ⟨hflow, hout, hf, hc, hs⟩ := hinv
    simp only at ht hf hc hs hout hflow ⊢
    subst ht
    refine ⟨⟨stored.length, ?_⟩, ?_, ?_⟩
    · rw [← hflow, ProcessAll_append_list, ← hout]
      simp
    · intro hdone
      have h1 := hs hdone
      have h2 := hc h1
      have h3 := hf h2
      subst h1 h2 h3
      simp only [Wiring.inFlight, EventStream.conversions, List.append_nil] at hflow
      rw [← hflow, ← hout]
    · intro hq
      exact quiescent_returned e eventStore _ hc hs hq
  · obtain ⟨schedule, hs⟩ := drain e eventStore ids []
    refine ⟨schedule ++ [.inputClosed, .bufferClosed, .outputClosed], ?_⟩
    unfold EventStream.run Wiring.init
    rw [List.foldl_append, hs]
    exact ⟨rfl, rfl⟩

/-- Witness of C8: the identifiers `[1,2,3,4,5]` of the test, of which only 1, 2
and 3 can be fetched, under a schedule that overlaps fetching, conversion and
delivery: events 1, 2, 3 are stored, in that order. -/
theorem C8_end_to_end_witness :
    (fixtures.stream.run (fixtures.storeAnswering 200 "200 OK") [1, 2, 3, 4, 5]
        fixtures.schedule).stored
      = [(fixtures.event1, .ok ()), (fixtures.event2, .ok ()), (fixtures.event3, .ok ())] :=
  (((C8_end_to_end fixtures.stream (fixtures.storeAnswering 200 "200 OK") [1, 2, 3, 4, 5]).1
    fixtures.schedule (by decide)).2.1 (by decide)).trans (by decide)

end pipeline

/-! ## Cancellation of the poller -/

namespace pipeline

theorem plant_inv_init : Plant.Inv Plant.init := by
  refine ⟨?_, ?_⟩ <;> simp [Plant.init]

theorem plant_inv_move (e : EventStream) (eventStore : EventStore) (s : Plant) (m : Move)
    (hinv : Plant.Inv s) : Plant.Inv (e.move eventStore s m) := by
  obtain ⟨checker, feed, feedTerminated, fetching, converting, terminated, stored,
    sinkReturned⟩ := s
  obtain ⟨h1, h2⟩ := hinv
  simp only at h1 h2
  cases m
  case poll get =>
    cases feed <;> simp only [EventStream.move] <;> exact ⟨h1, h2⟩
  case feedClose => exact ⟨h1, h2⟩
  case feedStop =>
    cases feed <;> cases feedTerminated <;> simp only [EventStream.move] <;> exact ⟨h1, h2⟩
  case emit =>
    cases feed <;> cases fetching <;> simp only [EventStream.move] <;>
      try exact ⟨h1, h2⟩
    next item rest =>
      refine ⟨h1, ?_⟩
      intro hc
      rcases h2 hc with h | h
      · cases h
      · exact Or.inr h
  case inputClosed =>
    cases feed <;> cases fetching <;> simp only [EventStream.move] <;>
      try exact ⟨h1, h2⟩
    exact ⟨h1, fun _ => Or.inl rfl⟩
  case handOver =>
    cases fetching <;> cases converting <;> simp only [EventStream.move] <;>
      try exact ⟨h1, h2⟩
    next event =>
      refine ⟨?_, ?_⟩
      · intro hs
        have := h1 hs
        cases this
      · simp only [EventStream.converted]
        cases e.convertEvent event <;> simp
  case bufferClosed =>
    cases fetching <;> cases converting <;> simp only [EventStream.move] <;>
      try exact ⟨h1, h2⟩
    exact ⟨fun _ => rfl, fun _ => Or.inl rfl⟩
  case deliver =>
    cases converting <;> cases sinkReturned <;> simp only [EventStream.move] <;>
      try exact ⟨h1, h2⟩
    exact ⟨fun h => (by cases h), fun h => (by cases h)⟩
  case outputClosed =>
    cases converting <;> simp only [EventStream.move] <;> try exact ⟨h1, h2⟩
    exact ⟨fun _ => rfl, h2⟩
  case close => exact ⟨h1, fun _ => Or.inr rfl⟩
  case fetchCancelled =>
    cases fetching <;> cases terminated <;> simp only [EventStream.move] <;>
      try exact ⟨h1, h2⟩
    exact ⟨h1, fun _ => Or.inl rfl⟩
  case convertCancelled =>
    cases converting <;> cases terminated <;> simp only [EventStream.move] <;>
      try exact ⟨h1, h2⟩
    refine ⟨?_, fun _ => Or.inr rfl⟩
    intro hs
    have := h1 hs
    cases this

theorem plant_inv_foldl (e : EventStream) (eventStore : EventStore) (schedule : List Move)
    (s : Plant) (hinv : Plant.Inv s) : Plant.Inv (schedule.foldl (e.move eventStore) s) := by
  induction schedule generalizing s with
  | nil => exact hinv
  | cons m schedule ih => exact ih _ (plant_inv_move e eventStore s m hinv)

theorem plant_inv_play (e : EventStream) (eventStore : EventStore) (schedule : List Move) :
    Plant.Inv (e.play eventStore schedule) :=
  plant_inv_foldl e eventStore schedule _ plant_inv_init

/-- From a state whose poller has been told to stop, the moves of `Feed.cascade`
make every loop return. -/
theorem cascade_allReturned (e : EventStream) (eventStore : EventStore) (s : Plant)
    (hinv : Plant.Inv s) (hclose : s.feedTerminated = true) :
    Plant.allReturned (Feed.cascade.foldl (e.move eventStore) s) := by
  obtain ⟨checker, feed, feedTerminated, fetching, converting, terminated, stored,
    sinkReturned⟩ := s
  obtain ⟨h1, h2⟩ := hinv
  simp only at h1 h2 hclose
  subst hclose
  cases fetching with
  | receiving =>
    cases converting with
    | receiving =>
      cases feed <;> cases sinkReturned <;>
        simp_all [Feed.cascade, EventStream.move, Plant.allReturned]
    | sending product =>
      cases feed <;> cases sinkReturned <;>
        simp_all [Feed.cascade, EventStream.move, Plant.allReturned]
    | returned =>
      cases feed <;> cases sinkReturned <;>
        simp_all [Feed.cascade, EventStream.move, Plant.allReturned]
  | sending event =>
    cases converting with
    | receiving =>
      cases hc : e.convertEvent event <;> cases feed <;> cases sinkReturned <;>
        simp_all [Feed.cascade, EventStream.move, Plant.allReturned, EventStream.converted]
    | sending product =>
      cases hc : e.convertEvent event <;> cases feed <;> cases sinkReturned <;>
        simp_all [Feed.cascade, EventStream.move, Plant.allReturned, EventStream.converted]
    | returned =>
      cases feed <;> cases sinkReturned <;>
        simp_all [Feed.cascade, EventStream.move, Plant.allReturned]
  | returned =>
    cases converting with
    | receiving =>
      cases feed <;> cases sinkReturned <;>
        simp_all [Feed.cascade, EventStream.move, Plant.allReturned]
    | sending product =>
      cases feed <;> cases sinkReturned <;>
        simp_all [Feed.cascade, EventStream.move, Plant.allReturned]
    | returned =>
      cases feed <;> cases sinkReturned <;>
        simp_all [Feed.cascade, EventStream.move, Plant.allReturned]

/-- A state whose poller has been told to stop and in which no loop can move is
one in which every loop has returned. -/
theorem stuck_allReturned (e : EventStream) (eventStore : EventStore) (s : Plant)
    (hinv : Plant.Inv s) (hclose : s.feedTerminated = true)
    (hq : ∀ m : Move, m ≠ .close → e.move eventStore s m = s) : Plant.allReturned s := by
  obtain ⟨checker, feed, feedTerminated, fetching, converting, terminated, stored,
    sinkReturned⟩ := s
  obtain ⟨h1, h2⟩ := hinv
  have q1 := hq .feedStop (fun h => by cases h)
  have q2 := hq .inputClosed (fun h => by cases h)
  have q3 := hq .handOver (fun h => by cases h)
  have q4 := hq .bufferClosed (fun h => by cases h)
  have q5 := hq .deliver (fun h => by cases h)
  have q6 := hq .outputClosed (fun h => by cases h)
  have q7 := hq .fetchCancelled (fun h => by cases h)
  clear hq
  simp only at h1 h2 hclose
  subst hclose
  have hfeed : feed = .returned := by
    cases feed with
    | polling => simp [EventStream.move] at q1
    | sending item rest => simp [EventStream.move] at q1
    | returned => rfl
  subst hfeed
  have hconv : converting = .returned ∨ (∃ product, converting = .sending product) := by
    cases fetching with
    | receiving => simp [EventStream.move] at q2
    | sending event =>
      cases converting with
      | receiving => simp [EventStream.move] at q3
      | sending product => exact Or.inr ⟨product, rfl⟩
      | returned => exact Or.inl rfl
    | returned =>
      cases converting with
      | receiving => simp [EventStream.move] at q4
      | sending product => exact Or.inr ⟨product, rfl⟩
      | returned => exact Or.inl rfl
  have hconv1 : converting = .returned := by
    rcases hconv with h | ⟨product, h⟩
    · exact h
    · subst h
      cases sinkReturned with
      | false => simp [EventStream.move] at q5
      | true => exact absurd (h1 rfl) (by simp)
  subst hconv1
  have hsink : sinkReturned = true := by
    cases sinkReturned with
    | false => simp [EventStream.move] at q6
    | true => rfl
  subst hsink
  have hfetch : fetching = .returned := by
    cases fetching with
    | receiving => simp [EventStream.move] at q2
    | sending event =>
      rcases h2 rfl with h | h
      · cases h
      · subst h
        simp [EventStream.move] at q7
    | returned => rfl
  subst hfetch
  exact ⟨rfl, rfl, rfl, rfl⟩

/-- Once the poller has returned, a move either changes nothing or lowers the rank. -/
theorem move_rank (e : EventStream) (eventStore : EventStore) (s : Plant) (m : Move)
    (hfeed : s.feed = .returned) :
    e.move eventStore s m = s ∨ (e.move eventStore s m).rank < s.rank := by
  obtain ⟨checker, feed, feedTerminated, fetching, converting, terminated, stored,
    sinkReturned⟩ := s
  simp only at hfeed
  subst hfeed
  cases m
  case poll get => exact Or.inl rfl
  case feedClose =>
    cases feedTerminated
    · right; simp [EventStream.move, Plant.rank]
    · exact Or.inl rfl
  case feedStop => cases feedTerminated <;> exact Or.inl rfl
  case emit => exact Or.inl rfl
  case inputClosed =>
    cases fetching
    · right; simp [EventStream.move, Plant.rank]
    · exact Or.inl rfl
    · exact Or.inl rfl
  case handOver =>
    cases fetching with
    | receiving => exact Or.inl rfl
    | returned => exact Or.inl rfl
    | sending event =>
      cases converting with
      | receiving =>
        right
        simp only [EventStream.move, Plant.rank, EventStream.converted]
        cases e.convertEvent event <;> simp
      | sending product => exact Or.inl rfl
      | returned => exact Or.inl rfl
  case bufferClosed =>
    cases fetching with
    | receiving => exact Or.inl rfl
    | sending event => exact Or.inl rfl
    | returned =>
      cases converting with
      | receiving => right; simp [EventStream.move, Plant.rank]
      | sending product => exact Or.inl rfl
      | returned => exact Or.inl rfl
  case deliver =>
    cases converting with
    | receiving => exact Or.inl rfl
    | returned => exact Or.inl rfl
    | sending product =>
      cases sinkReturned
      · right; simp [EventStream.move, Plant.rank]
      · exact Or.inl rfl
  case outputClosed =>
    cases converting with
    | receiving => exact Or.inl rfl
    | sending product => exact Or.inl rfl
    | returned =>
      cases sinkReturned
      · right; simp [EventStream.move, Plant.rank]
      · exact Or.inl rfl
  case close =>
    cases terminated
    · right; simp [EventStream.move, Plant.rank]
    · exact Or.inl rfl
  case fetchCancelled =>
    cases fetching with
    | receiving => exact Or.inl rfl
    | returned => exact Or.inl rfl
    | sending event =>
      cases terminated
      · exact Or.inl rfl
      · right; simp [EventStream.move, Plant.rank]
  case convertCancelled =>
    cases converting with
    | receiving => exact Or.inl rfl
    | returned => exact Or.inl rfl
    | sending product =>
      cases terminated
      · exact Or.inl rfl
      · right; simp [EventStream.move, Plant.rank]

/-- A poller that has returned stays returned and hands over nothing. -/
theorem returned_stays (e : EventStream) (eventStore : EventStore) (s : Plant) (m : Move)
    (hfeed : s.feed = .returned) :
    (e.move eventStore s m).feed = .returned ∧ e.move eventStore s .emit = s := by
  obtain ⟨checker, feed, feedTerminated, fetching, converting, terminated, stored,
    sinkReturned⟩ := s
  simp only at hfeed
  subst hfeed
  refine ⟨?_, rfl⟩
  cases m <;> simp only [EventStream.move] <;> (try split) <;> rfl

/-- C10: in every state reached with `Feed.Close` called, (1) the termination
case of the poller is ready wherever the poller stands, and taking it makes the
poller return with `f.newItems` closed, also when it is blocked offering an
identifier; (2) a poller that has returned stays returned and hands over nothing
more; (3) phase A at its receive then finds its input closed and returns, phase
B at its receive then finds `events` closed and returns, and the sink then finds
`e.events` closed and returns; (4) the moves of `Feed.cascade` make all four
loops return; (5) a state in which no loop can move has all four returned; and
(6) once the poller has returned every move that changes the state lowers
`Plant.rank`, so only boundedly many such moves remain. -/
theorem C10_cancellation_cascade (e : EventStream) (eventStore : EventStore)
    (schedule : List Move) (hclose : (e.play eventStore schedule).feedTerminated = true) :
    (∀ s : Plant, s.feedTerminated = true →
      (e.move eventStore s .feedStop).feed = .returned ∧
      ∀ (item : Int) (rest : List Int), s.feed = .sending item rest →
        e.move eventStore s .feedStop = { s with feed := .returned }) ∧
    (∀ (s : Plant) (m : Move), s.feed = .returned →
      (e.move eventStore s m).feed = .returned ∧ e.move eventStore s .emit = s) ∧
    (∀ s : Plant, s.feed = .returned → s.fetching = .receiving →
      (e.move eventStore s .inputClosed).fetching = .returned) ∧
    (∀ s : Plant, s.fetching = .returned → s.converting = .receiving →
      (e.move eventStore s .bufferClosed).converting = .returned) ∧
    (∀ s : Plant, s.converting = .returned →
      (e.move eventStore s .outputClosed).sinkReturned = true) ∧
    Plant.allReturned (e.play eventStore (schedule ++ Feed.cascade)) ∧
    ((∀ m : Move, m ≠ .close →
        e.move eventStore (e.play eventStore schedule) m = e.play eventStore schedule) →
      Plant.allReturned (e.play eventStore schedule)) ∧
    (∀ (s : Plant) (m : Move), s.feed = .returned →
      e.move eventStore s m = s ∨ (e.move eventStore s m).rank < s.rank) := by
  have hinv := plant_inv_play e eventStore schedule
  refine ⟨?_, ?_, ?_, ?_, ?_, ?_, ?_, ?_⟩
  · intro s hs
    obtain ⟨checker, feed, feedTerminated, fetching, converting, terminated, stored,
      sinkReturned⟩ := s
    simp only at hs
    subst hs
    refine ⟨?_, ?_⟩
    · cases feed <;> rfl
    · intro item rest hfeed
      simp only at hfeed
      subst hfeed
      rfl
  · intro s m hs
    exact returned_stays e eventStore s m hs
  · intro s hfeed hfetch
    obtain ⟨checker, feed, feedTerminated, fetching, converting, terminated, stored,
      sinkReturned⟩ := s
    simp only at hfeed hfetch
    subst hfeed hfetch
    rfl
  · intro s hfetch hconv
    obtain ⟨checker, feed, feedTerminated, fetching, converting, terminated, stored,
      sinkReturned⟩ := s
    simp only at hfetch hconv
    subst hfetch hconv
    rfl
  · intro s hconv
    obtain ⟨checker, feed, feedTerminated, fetching, converting, terminated, stored,
      sinkReturned⟩ := s
    simp only at hconv
    subst hconv
    rfl
  · unfold EventStream.play
    rw [List.foldl_append]
    exact cascade_allReturned e eventStore _ hinv hclose
  · intro hq
    exact stuck_allReturned e eventStore _ hinv hclose hq
  · intro s m hs
    exact move_rank e eventStore s m hs

/-- Witness of C10: in the test pipeline `Feed.Close` comes while the poller is
blocked offering identifier 3; the cascade makes every loop return. -/
theorem C10_cancellation_cascade_witness :
    (fixtures.stream.play (fixtures.storeAnswering 200 "200 OK")
        fixtures.closedWhileSending).feed = .sending 3 [4, 5] ∧
      Plant.allReturned (fixtures.stream.play (fixtures.storeAnswering 200 "200 OK")
        (fixtures.closedWhileSending ++ Feed.cascade)) :=
  ⟨by decide,
   (C10_cancellation_cascade fixtures.stream (fixtures.storeAnswering 200 "200 OK")
     fixtures.closedWhileSending (by decide)).2.2.2.2.2.1⟩

end pipeline
